import Mathlib

/-!
# Commands dispatcher and component event registry

A shallow embedding of `src/lib/dist/commands/Commands.js` and of the component
event registry exercised by `src/lib/dist/events/ComponentEventsObserver.test.js`.

`Commands.js` is a class whose methods call five injected collaborators
(`nativeCommandsSender`, `layoutTreeParser`, `layoutTreeCrawler`,
`commandsObserver`, `uniqueIdProvider`) and lodash (`_.cloneDeep`, `_.map`).
The embedding is a state-and-exception monad over a `World` holding

* an object store (JavaScript objects are passed by reference, and the
  crawler writes into the object it is given), and
* the trace of collaborator calls made so far, each with its outcome.

The collaborators themselves are parameters (`Collaborators`): every theorem
about `Commands` holds for all of them.
-/

/-- JavaScript data: what an object holds, what a property evaluates to. -/
inductive Val where
  | undefined
  | null
  | bool (b : Bool)
  | num (n : Int)
  | str (s : String)
  | obj (fields : List (String × Val))
  | arr (items : List Val)
  deriving Repr, Inhabited

/-- A thrown JavaScript error. -/
structure JSError where
  message : String
  deriving Repr, DecidableEq, Inhabited

namespace Commands

/-- A value handed to a collaborator: a primitive, a reference to a stored
object (objects are named by natural numbers), or the object literal
`{ root, modals, overlays }` built by `setRoot` (written out twice in the
source, once for the sender and once for the observer; it is told by what it
holds). -/
inductive Arg where
  | undefined
  | str (s : String)
  | ref (r : Nat)
  | layoutRoot (root : Nat) (modals : List Nat) (overlays : List Nat)
  deriving Repr, DecidableEq, Inhabited

/-- The object literal passed to `commandsObserver.notify`, as its list of
properties in source order. -/
abbrev Payload := List (String × Arg)

/-- One collaborator call together with how it ended. -/
inductive Event where
  | parse (arg : Nat) (outcome : Except JSError Nat)
  | crawl (arg : Nat) (outcome : Except JSError Unit)
  | processOptions (arg : Nat) (outcome : Except JSError Unit)
  | generate (pfx : String) (outcome : Except JSError String)
  | send (name : String) (args : List Arg) (outcome : Except JSError Val)
  | notify (name : String) (payload : Payload) (outcome : Except JSError Unit)

/-- The call went to `nativeCommandsSender`. -/
def Event.isSend : Event → Bool
  | .send _ _ _ => true
  | _ => false

/-- The call went to `commandsObserver.notify`. -/
def Event.isNotify : Event → Bool
  | .notify _ _ _ => true
  | _ => false

/-- The call went to `layoutTreeParser.parse` or `layoutTreeCrawler.crawl`. -/
def Event.isLayoutTransform : Event → Bool
  | .parse _ _ => true
  | .crawl _ _ => true
  | _ => false

/-- The error the call threw, if it threw. -/
def Event.thrown : Event → Option JSError
  | .parse _ (.error e) => some e
  | .crawl _ (.error e) => some e
  | .processOptions _ (.error e) => some e
  | .generate _ (.error e) => some e
  | .send _ _ (.error e) => some e
  | .notify _ _ (.error e) => some e
  | _ => none

/-- The store of objects, the next free reference, and the calls made so far. -/
structure World where
  store : Nat → Val
  next : Nat
  log : List Event

/-- The injected collaborators of the `Commands` constructor.

* `parse v` is what `layoutTreeParser.parse` does on an argument holding `v`:
  it throws, or yields what it leaves in its argument and the contents of the
  node it returns;
* `crawl v` and `processOptions v` throw or yield what they leave in their
  argument (both work in place and return nothing);
* `generate`, `send` and `notify` may depend on everything that happened before
  (the world at the time of the call); they read the store and do not write it. -/
structure Collaborators where
  parse : Val → Except JSError (Val × Val)
  crawl : Val → Except JSError Val
  processOptions : Val → Except JSError Val
  generate : World → String → Except JSError String
  send : World → String → List Arg → Except JSError Val
  notify : World → String → Payload → Except JSError Unit

/-- A computation over the world that returns or throws; the world reached is
kept in both cases. -/
def M (α : Type) : Type := World → Except JSError α × World

instance : Monad M where
  pure a := fun w => (.ok a, w)
  bind m f := fun w =>
    match m w with
    | (.ok a, w1) => f a w1
    | (.error e, w1) => (.error e, w1)

/-- Append one call to the trace. -/
def World.record (w : World) (ev : Event) : World :=
  { w with log := w.log ++ [ev] }

/-- Overwrite the contents of one stored object. -/
def World.write (w : World) (r : Nat) (v : Val) : World :=
  { w with store := Function.update w.store r v }

/-- Store a new object and advance the free reference. -/
def World.alloc (w : World) (v : Val) : World :=
  { w with store := Function.update w.store w.next v, next := w.next + 1 }

/-- `_.cloneDeep(x)` for an object `x`: a fresh object with the same contents. -/
def cloneDeep (x : Nat) : M Nat := fun w =>
  (.ok w.next, w.alloc (w.store x))

/-- `this.layoutTreeParser.parse(arg)`. -/
def parse (c : Collaborators) (arg : Nat) : M Nat := fun w =>
  match c.parse (w.store arg) with
  | .error e => (.error e, w.record (.parse arg (.error e)))
  | .ok (left, node) =>
    (.ok w.next, ((w.write arg left).alloc node).record (.parse arg (.ok w.next)))

/-- `this.layoutTreeCrawler.crawl(arg)`. -/
def crawl (c : Collaborators) (arg : Nat) : M Unit := fun w =>
  match c.crawl (w.store arg) with
  | .error e => (.error e, w.record (.crawl arg (.error e)))
  | .ok left => (.ok (), (w.write arg left).record (.crawl arg (.ok ())))

/-- `this.layoutTreeCrawler.processOptions(arg)`. -/
def processOptions (c : Collaborators) (arg : Nat) : M Unit := fun w =>
  match c.processOptions (w.store arg) with
  | .error e => (.error e, w.record (.processOptions arg (.error e)))
  | .ok left => (.ok (), (w.write arg left).record (.processOptions arg (.ok ())))

/-- `this.uniqueIdProvider.generate(pfx)`. -/
def generate (c : Collaborators) (pfx : String) : M String := fun w =>
  (c.generate w pfx, w.record (.generate pfx (c.generate w pfx)))

/-- `this.nativeCommandsSender.<name>(...args)`. -/
def send (c : Collaborators) (name : String) (args : List Arg) : M Val := fun w =>
  (c.send w name args, w.record (.send name args (c.send w name args)))

/-- `this.commandsObserver.notify(name, payload)`. -/
def notify (c : Collaborators) (name : String) (payload : Payload) : M Unit := fun w =>
  (c.notify w name payload, w.record (.notify name payload (c.notify w name payload)))

/-- The argument of `setRoot`: an object with a `root` layout and optional
`modals` and `overlays` arrays of layouts, each layout an object of its own
(the declarative layout description is a tree: no layout sits in two places). -/
structure LayoutRoot where
  root : Nat
  modals : Option (List Nat)
  overlays : Option (List Nat)
  deriving Repr, DecidableEq

/-- Deep clone of an array of objects, element by element. -/
def cloneDeepAll : List Nat → M (List Nat)
  | [] => pure []
  | x :: xs => do
    let y ← cloneDeep x
    let ys ← cloneDeepAll xs
    pure (y :: ys)

/-- Deep clone of an optional array: an absent property stays absent. -/
def cloneDeepOpt : Option (List Nat) → M (Option (List Nat))
  | none => pure none
  | some xs => do
    let ys ← cloneDeepAll xs
    pure (some ys)

/-- `_.cloneDeep(simpleApi)` for the argument of `setRoot`: every layout it
holds is cloned into a fresh object. -/
def cloneDeepRoot (simpleApi : LayoutRoot) : M LayoutRoot := do
  let root ← cloneDeep simpleApi.root
  let modals ← cloneDeepOpt simpleApi.modals
  let overlays ← cloneDeepOpt simpleApi.overlays
  pure { root := root, modals := modals, overlays := overlays }

/-- The iteration of `_.map` over an array, left to right. -/
def mapArray (iteratee : Nat → M Nat) : List Nat → M (List Nat)
  | [] => pure []
  | x :: xs => do
    let y ← iteratee x
    let ys ← mapArray iteratee xs
    pure (y :: ys)

/-- `_.map(collection, iteratee)`; an undefined collection maps to `[]`. -/
def lodashMap (collection : Option (List Nat)) (iteratee : Nat → M Nat) : M (List Nat) :=
  match collection with
  | none => pure []
  | some xs => mapArray iteratee xs

/-- `Commands.setRoot(simpleApi)`. -/
def setRoot (c : Collaborators) (simpleApi : LayoutRoot) : M Val := do
  let input ← cloneDeepRoot simpleApi
  let root ← parse c input.root
  crawl c root
  let modals ← lodashMap input.modals (fun modal => do
    let modalLayout ← parse c modal
    crawl c modalLayout
    pure modalLayout)
  let overlays ← lodashMap input.overlays (fun overlay => do
    let overlayLayout ← parse c overlay
    crawl c overlayLayout
    pure overlayLayout)
  let commandId ← generate c "setRoot"
  let result ← send c "setRoot" [.str commandId, .layoutRoot root modals overlays]
  notify c "setRoot"
    [("commandId", .str commandId), ("layout", .layoutRoot root modals overlays)]
  pure result

/-- `Commands.setDefaultOptions(options)`. -/
def setDefaultOptions (c : Collaborators) (options : Nat) : M Val := do
  let input ← cloneDeep options
  processOptions c input
  let _ ← send c "setDefaultOptions" [.ref input]
  notify c "setDefaultOptions" [("options", .ref options)]
  pure Val.undefined

/-- `Commands.mergeOptions(componentId, options)`. -/
def mergeOptions (c : Collaborators) (componentId : String) (options : Nat) : M Val := do
  let input ← cloneDeep options
  processOptions c input
  let _ ← send c "mergeOptions" [.str componentId, .ref input]
  notify c "mergeOptions" [("componentId", .str componentId), ("options", .ref options)]
  pure Val.undefined

/-- `Commands.showModal(simpleApi)`. -/
def showModal (c : Collaborators) (simpleApi : Nat) : M Val := do
  let input ← cloneDeep simpleApi
  let layout ← parse c input
  crawl c layout
  let commandId ← generate c "showModal"
  let result ← send c "showModal" [.str commandId, .ref layout]
  notify c "showModal" [("commandId", .str commandId), ("layout", .ref layout)]
  pure result

/-- `Commands.dismissModal(componentId)`. -/
def dismissModal (c : Collaborators) (componentId : String) : M Val := do
  let commandId ← generate c "dismissModal"
  let result ← send c "dismissModal" [.str commandId, .str componentId]
  notify c "dismissModal" [("commandId", .str commandId), ("componentId", .str componentId)]
  pure result

/-- `Commands.dismissAllModals()`. -/
def dismissAllModals (c : Collaborators) : M Val := do
  let commandId ← generate c "dismissAllModals"
  let result ← send c "dismissAllModals" [.str commandId]
  notify c "dismissAllModals" [("commandId", .str commandId)]
  pure result

/-- `Commands.push(componentId, simpleApi)`. -/
def push (c : Collaborators) (componentId : String) (simpleApi : Nat) : M Val := do
  let input ← cloneDeep simpleApi
  let layout ← parse c input
  crawl c layout
  let commandId ← generate c "push"
  let result ← send c "push" [.str commandId, .str componentId, .ref layout]
  notify c "push"
    [("commandId", .str commandId), ("componentId", .str componentId), ("layout", .ref layout)]
  pure result

/-- `Commands.pop(componentId, options)`; `options` is handed on as it came. -/
def pop (c : Collaborators) (componentId : String) (options : Arg) : M Val := do
  let commandId ← generate c "pop"
  let result ← send c "pop" [.str commandId, .str componentId, options]
  notify c "pop"
    [("commandId", .str commandId), ("componentId", .str componentId), ("options", options)]
  pure result

/-- `Commands.popTo(componentId)`. -/
def popTo (c : Collaborators) (componentId : String) : M Val := do
  let commandId ← generate c "popTo"
  let result ← send c "popTo" [.str commandId, .str componentId]
  notify c "popTo" [("commandId", .str commandId), ("componentId", .str componentId)]
  pure result

/-- `Commands.popToRoot(componentId)`. -/
def popToRoot (c : Collaborators) (componentId : String) : M Val := do
  let commandId ← generate c "popToRoot"
  let result ← send c "popToRoot" [.str commandId, .str componentId]
  notify c "popToRoot" [("commandId", .str commandId), ("componentId", .str componentId)]
  pure result

/-- `Commands.setStackRoot(componentId, simpleApi)`. -/
def setStackRoot (c : Collaborators) (componentId : String) (simpleApi : Nat) : M Val := do
  let input ← cloneDeep simpleApi
  let layout ← parse c input
  crawl c layout
  let commandId ← generate c "setStackRoot"
  let result ← send c "setStackRoot" [.str commandId, .str componentId, .ref layout]
  notify c "setStackRoot"
    [("commandId", .str commandId), ("componentId", .str componentId), ("layout", .ref layout)]
  pure result

/-- `Commands.showOverlay(simpleApi)`. -/
def showOverlay (c : Collaborators) (simpleApi : Nat) : M Val := do
  let input ← cloneDeep simpleApi
  let layout ← parse c input
  crawl c layout
  let commandId ← generate c "showOverlay"
  let result ← send c "showOverlay" [.str commandId, .ref layout]
  notify c "showOverlay" [("commandId", .str commandId), ("layout", .ref layout)]
  pure result

/-- `Commands.dismissOverlay(componentId)`. -/
def dismissOverlay (c : Collaborators) (componentId : String) : M Val := do
  let commandId ← generate c "dismissOverlay"
  let result ← send c "dismissOverlay" [.str commandId, .str componentId]
  notify c "dismissOverlay" [("commandId", .str commandId), ("componentId", .str componentId)]
  pure result

/-- `Commands.getLaunchArgs()`. -/
def getLaunchArgs (c : Collaborators) : M Val := do
  let commandId ← generate c "getLaunchArgs"
  let result ← send c "getLaunchArgs" [.str commandId]
  notify c "getLaunchArgs" [("commandId", .str commandId)]
  pure result

/-- One call of a `Commands` method with its arguments. -/
inductive Invocation where
  | setRoot (simpleApi : LayoutRoot)
  | setDefaultOptions (options : Nat)
  | mergeOptions (componentId : String) (options : Nat)
  | showModal (simpleApi : Nat)
  | dismissModal (componentId : String)
  | dismissAllModals
  | push (componentId : String) (simpleApi : Nat)
  | pop (componentId : String) (options : Arg)
  | popTo (componentId : String)
  | popToRoot (componentId : String)
  | setStackRoot (componentId : String) (simpleApi : Nat)
  | showOverlay (simpleApi : Nat)
  | dismissOverlay (componentId : String)
  | getLaunchArgs
  deriving Repr, DecidableEq

/-- The name of the method called. -/
def Invocation.name : Invocation → String
  | .setRoot _ => "setRoot"
  | .setDefaultOptions _ => "setDefaultOptions"
  | .mergeOptions _ _ => "mergeOptions"
  | .showModal _ => "showModal"
  | .dismissModal _ => "dismissModal"
  | .dismissAllModals => "dismissAllModals"
  | .push _ _ => "push"
  | .pop _ _ => "pop"
  | .popTo _ => "popTo"
  | .popToRoot _ => "popToRoot"
  | .setStackRoot _ _ => "setStackRoot"
  | .showOverlay _ => "showOverlay"
  | .dismissOverlay _ => "dismissOverlay"
  | .getLaunchArgs => "getLaunchArgs"

/-- Run the method the invocation names. -/
def invoke (c : Collaborators) : Invocation → M Val
  | .setRoot simpleApi => setRoot c simpleApi
  | .setDefaultOptions options => setDefaultOptions c options
  | .mergeOptions componentId options => mergeOptions c componentId options
  | .showModal simpleApi => showModal c simpleApi
  | .dismissModal componentId => dismissModal c componentId
  | .dismissAllModals => dismissAllModals c
  | .push componentId simpleApi => push c componentId simpleApi
  | .pop componentId options => pop c componentId options
  | .popTo componentId => popTo c componentId
  | .popToRoot componentId => popToRoot c componentId
  | .setStackRoot componentId simpleApi => setStackRoot c componentId simpleApi
  | .showOverlay simpleApi => showOverlay c simpleApi
  | .dismissOverlay componentId => dismissOverlay c componentId
  | .getLaunchArgs => getLaunchArgs c

/-! ### The two phases of an invocation

Every method is a transform phase (clone, parse, crawl, process options)
followed by a dispatch phase (mint an id, send, notify).  The definitions below
restate the methods in that shape; `invoke_eq_phases` proves the restatement
equal to the methods above. -/

/-- The body of the two iteratees of `setRoot`: parse, crawl, hand back the node. -/
def parseThenCrawl (c : Collaborators) (x : Nat) : M Nat := do
  let layout ← parse c x
  crawl c layout
  pure layout

/-- Whether the method mints a command id (all but the two options methods). -/
def Invocation.mintsId : Invocation → Bool
  | .setDefaultOptions _ => false
  | .mergeOptions _ _ => false
  | _ => true

/-- Whether the method takes a layout that it parses and crawls. -/
def Invocation.bearsLayout : Invocation → Bool
  | .setRoot _ => true
  | .showModal _ => true
  | .push _ _ => true
  | .setStackRoot _ _ => true
  | .showOverlay _ => true
  | _ => false

/-- The objects inside a value handed to a collaborator. -/
def Arg.refs : Arg → List Nat
  | .ref r => [r]
  | .layoutRoot root modals overlays => root :: (modals ++ overlays)
  | _ => []

/-- The layout and options objects the caller supplies with an invocation. -/
def Invocation.supplied : Invocation → List Nat
  | .setRoot s => s.root :: (s.modals.getD [] ++ s.overlays.getD [])
  | .setDefaultOptions options => [options]
  | .mergeOptions _ options => [options]
  | .showModal s => [s]
  | .push _ s => [s]
  | .pop _ options => options.refs
  | .setStackRoot _ s => [s]
  | .showOverlay s => [s]
  | _ => []

/-- The transform phase: everything a method does before it mints an id or
calls the native sender, yielding the transformed value it will dispatch. -/
def transformPhase (c : Collaborators) : Invocation → M Arg
  | .setRoot simpleApi => do
    let input ← cloneDeepRoot simpleApi
    let root ← parseThenCrawl c input.root
    let modals ← lodashMap input.modals (parseThenCrawl c)
    let overlays ← lodashMap input.overlays (parseThenCrawl c)
    pure (.layoutRoot root modals overlays)
  | .setDefaultOptions options => do
    let input ← cloneDeep options
    processOptions c input
    pure (.ref input)
  | .mergeOptions _ options => do
    let input ← cloneDeep options
    processOptions c input
    pure (.ref input)
  | .showModal simpleApi => do
    let input ← cloneDeep simpleApi
    let layout ← parseThenCrawl c input
    pure (.ref layout)
  | .push _ simpleApi => do
    let input ← cloneDeep simpleApi
    let layout ← parseThenCrawl c input
    pure (.ref layout)
  | .setStackRoot _ simpleApi => do
    let input ← cloneDeep simpleApi
    let layout ← parseThenCrawl c input
    pure (.ref layout)
  | .showOverlay simpleApi => do
    let input ← cloneDeep simpleApi
    let layout ← parseThenCrawl c input
    pure (.ref layout)
  | .pop _ options => pure options
  | _ => pure .undefined

/-- The arguments of the native-sender call, given the minted id (unused by the
two options methods) and the transformed value. -/
def sendArgs : Invocation → String → Arg → List Arg
  | .setRoot _, commandId, t => [.str commandId, t]
  | .setDefaultOptions _, _, t => [t]
  | .mergeOptions componentId _, _, t => [.str componentId, t]
  | .showModal _, commandId, t => [.str commandId, t]
  | .dismissModal componentId, commandId, _ => [.str commandId, .str componentId]
  | .dismissAllModals, commandId, _ => [.str commandId]
  | .push componentId _, commandId, t => [.str commandId, .str componentId, t]
  | .pop componentId _, commandId, t => [.str commandId, .str componentId, t]
  | .popTo componentId, commandId, _ => [.str commandId, .str componentId]
  | .popToRoot componentId, commandId, _ => [.str commandId, .str componentId]
  | .setStackRoot componentId _, commandId, t => [.str commandId, .str componentId, t]
  | .showOverlay _, commandId, t => [.str commandId, t]
  | .dismissOverlay componentId, commandId, _ => [.str commandId, .str componentId]
  | .getLaunchArgs, commandId, _ => [.str commandId]

/-- The payload of the observer notification, given the minted id (unused by
the two options methods) and the transformed value. -/
def payloadOf : Invocation → String → Arg → Payload
  | .setRoot _, commandId, t => [("commandId", .str commandId), ("layout", t)]
  | .setDefaultOptions options, _, _ => [("options", .ref options)]
  | .mergeOptions componentId options, _, _ =>
    [("componentId", .str componentId), ("options", .ref options)]
  | .showModal _, commandId, t => [("commandId", .str commandId), ("layout", t)]
  | .dismissModal componentId, commandId, _ =>
    [("commandId", .str commandId), ("componentId", .str componentId)]
  | .dismissAllModals, commandId, _ => [("commandId", .str commandId)]
  | .push componentId _, commandId, t =>
    [("commandId", .str commandId), ("componentId", .str componentId), ("layout", t)]
  | .pop componentId _, commandId, t =>
    [("commandId", .str commandId), ("componentId", .str componentId), ("options", t)]
  | .popTo componentId, commandId, _ =>
    [("commandId", .str commandId), ("componentId", .str componentId)]
  | .popToRoot componentId, commandId, _ =>
    [("commandId", .str commandId), ("componentId", .str componentId)]
  | .setStackRoot componentId _, commandId, t =>
    [("commandId", .str commandId), ("componentId", .str componentId), ("layout", t)]
  | .showOverlay _, commandId, t => [("commandId", .str commandId), ("layout", t)]
  | .dismissOverlay componentId, commandId, _ =>
    [("commandId", .str commandId), ("componentId", .str componentId)]
  | .getLaunchArgs, commandId, _ => [("commandId", .str commandId)]

/-- The dispatch phase of the twelve methods that mint an id. -/
def dispatchWithId (c : Collaborators) (call : Invocation) (t : Arg) : M Val := do
  let commandId ← generate c call.name
  let result ← send c call.name (sendArgs call commandId t)
  notify c call.name (payloadOf call commandId t)
  pure result

/-- The dispatch phase of `setDefaultOptions` and `mergeOptions`. -/
def dispatchPlain (c : Collaborators) (call : Invocation) (t : Arg) : M Val := do
  let _ ← send c call.name (sendArgs call "" t)
  notify c call.name (payloadOf call "" t)
  pure Val.undefined

/-- The dispatch phase: everything from minting the id on. -/
def dispatchPhase (c : Collaborators) (call : Invocation) (t : Arg) : M Val :=
  if call.mintsId then dispatchWithId c call t else dispatchPlain c call t

/-- The call went to `uniqueIdProvider.generate`. -/
def Event.isGenerate : Event → Bool
  | .generate _ _ => true
  | _ => false

/-- The call went to one of the in-place transforms: `parse`, `crawl` or
`processOptions`. -/
def Event.isTransform : Event → Bool
  | .parse _ _ => true
  | .crawl _ _ => true
  | .processOptions _ _ => true
  | _ => false

/-- The object an in-place transform was applied to. -/
def Event.target : Event → Option Nat
  | .parse arg _ => some arg
  | .crawl arg _ => some arg
  | .processOptions arg _ => some arg
  | _ => none

/-- The two calls that turn the object `p.1` into the crawled node `p.2`. -/
def steps (p : Nat × Nat) : List Event :=
  [.parse p.1 (.ok p.2), .crawl p.2 (.ok ())]

/-- What a layout holding `v` is turned into: the contents of the node `parse`
returns for it, after `crawl` has worked on that node (`none` if either throws). -/
def transformOf (c : Collaborators) (v : Val) : Option Val :=
  match c.parse v with
  | .error _ => none
  | .ok (_, node) =>
    match c.crawl node with
    | .error _ => none
    | .ok crawled => some crawled

/-- A trace fits an outcome: no call threw except possibly the last one, and
the outcome is the error of the last call exactly when that one threw. -/
def Consistent {α : Type} (r : Except JSError α) (new : List Event) : Prop :=
  match r with
  | .ok _ => ∀ ev ∈ new, ev.thrown = none
  | .error e => ∃ pre last, new = pre ++ [last] ∧ last.thrown = some e ∧
      ∀ ev ∈ pre, ev.thrown = none

/-- What a run of transform steps from `w` to `w1` may do when every object
they work on lies at or above `b`: extend the trace by transform calls only,
never lower the free reference, and leave every object below `b` as it was. -/
structure TransformRun {α : Type} (b : Nat) (w : World) (r : Except JSError α) (w1 : World)
    (new : List Event) : Prop where
  log_eq : w1.log = w.log ++ new
  next_le : w.next ≤ w1.next
  frame : ∀ a, a < b → w1.store a = w.store a
  events : ∀ ev ∈ new, ev.isTransform = true ∧ ∀ a, ev.target = some a → b ≤ a
  consistent : Consistent r new

/-- Started with its free reference at or above `b`, the computation makes a
`TransformRun` above `b`, and what it returns satisfies `Q`. -/
def Transforms {α : Type} (b : Nat) (m : M α) (Q : α → Prop) : Prop :=
  ∀ w : World, b ≤ w.next →
    ∃ new, TransformRun b w (m w).1 (m w).2 new ∧ ∀ a, (m w).1 = .ok a → Q a

/-- The world after `_.cloneDeep` of each object of a list in turn. -/
def cloned : List Nat → World → World
  | [], w => w
  | x :: xs, w => cloned xs (w.alloc (w.store x))

/-- The ways the dispatch phase of `call` can go on the transformed value `t`:
the outcome of the method and the calls made, in order. -/
inductive Dispatched (call : Invocation) (t : Arg) : Except JSError Val → List Event → Prop
  | generateThrew (e : JSError) (h : call.mintsId = true) :
    Dispatched call t (.error e) [.generate call.name (.error e)]
  | sendThrew (commandId : String) (e : JSError) (h : call.mintsId = true) :
    Dispatched call t (.error e)
      [.generate call.name (.ok commandId),
       .send call.name (sendArgs call commandId t) (.error e)]
  | notifyThrew (commandId : String) (result : Val) (e : JSError) (h : call.mintsId = true) :
    Dispatched call t (.error e)
      [.generate call.name (.ok commandId),
       .send call.name (sendArgs call commandId t) (.ok result),
       .notify call.name (payloadOf call commandId t) (.error e)]
  | done (commandId : String) (result : Val) (h : call.mintsId = true) :
    Dispatched call t (.ok result)
      [.generate call.name (.ok commandId),
       .send call.name (sendArgs call commandId t) (.ok result),
       .notify call.name (payloadOf call commandId t) (.ok ())]
  | plainSendThrew (e : JSError) (h : call.mintsId = false) :
    Dispatched call t (.error e) [.send call.name (sendArgs call "" t) (.error e)]
  | plainNotifyThrew (result : Val) (e : JSError) (h : call.mintsId = false) :
    Dispatched call t (.error e)
      [.send call.name (sendArgs call "" t) (.ok result),
       .notify call.name (payloadOf call "" t) (.error e)]
  | plainDone (result : Val) (h : call.mintsId = false) :
    Dispatched call t (.ok Val.undefined)
      [.send call.name (sendArgs call "" t) (.ok result),
       .notify call.name (payloadOf call "" t) (.ok ())]

/-- The calls an invocation adds to the trace of the world it starts in. -/
def trace (c : Collaborators) (call : Invocation) (w : World) : List Event :=
  (invoke c call w).2.log.drop w.log.length

/-- The claim that an invocation mints its command id under its own name and
hands it to the native sender: whenever the native sender is called, it is the
sender operation named after the method, its first argument is a command id,
and that id is what the one call `generate(<method name>)` returned; and the
native sender is called whenever no collaborator throws. -/
def MintsCommandId (c : Collaborators) (call : Invocation) (w : World) : Prop :=
  (∀ n args out, Event.send n args out ∈ trace c call w →
    n = call.name ∧ ∃ commandId rest, args = .str commandId :: rest ∧
      (trace c call w).filter Event.isGenerate = [.generate call.name (.ok commandId)]) ∧
  ((∀ ev ∈ trace c call w, ev.thrown = none) →
    ∃ args out, Event.send call.name args out ∈ trace c call w)

/-- The object `r` went through an in-place transform in the trace: it was
returned by a `parse` call and then crawled, or it had its options processed. -/
def wasTransformed (tr : List Event) (r : Nat) : Prop :=
  ((∃ a, Event.parse a (.ok r) ∈ tr) ∧ Event.crawl r (.ok ()) ∈ tr) ∨
    Event.processOptions r (.ok ()) ∈ tr

/-- The payload property that carries the transformed value of a method. -/
def Invocation.field : Invocation → String
  | .setDefaultOptions _ => "options"
  | .mergeOptions _ _ => "options"
  | _ => "layout"

/-- The claim that the observer is told the command id: every notification of
the invocation is under the method's name, and its payload's `commandId` is the
command id that went first to the native sender. -/
def NotifiesCommandId (c : Collaborators) (call : Invocation) (w : World) : Prop :=
  ∀ n payload out, Event.notify n payload out ∈ trace c call w →
    n = call.name ∧
    ∃ commandId args sent,
      (trace c call w).filter Event.isSend = [.send call.name args sent] ∧
      args.head? = some (.str commandId) ∧
      List.lookup "commandId" payload = some (.str commandId)

/-- The claim that the observer is told the transformed value: the `layout` (or
`options`) of the payload of every notification is the value that went last to
the native sender, and every object of that value went through the transforms. -/
def NotifiesTransformedValue (c : Collaborators) (call : Invocation) (w : World) : Prop :=
  ∀ n payload out, Event.notify n payload out ∈ trace c call w →
    ∃ t args sent,
      (trace c call w).filter Event.isSend = [.send call.name args sent] ∧
      args.getLast? = some t ∧
      List.lookup call.field payload = some t ∧
      ∀ r ∈ t.refs, wasTransformed (trace c call w) r

/-- The claim that the observer is told what was sent: the command id and the
transformed value. -/
def NotifiesWhatWasSent (c : Collaborators) (call : Invocation) (w : World) : Prop :=
  NotifiesCommandId c call w ∧ NotifiesTransformedValue c call w

/-- The claim that an invocation returns what the native sender returned: the
native sender was called once, under the method's name, and the value it
returned is the value of the invocation. -/
def ReturnsNativeResult (c : Collaborators) (call : Invocation) (w : World) : Prop :=
  ∃ args result, (trace c call w).filter Event.isSend = [.send call.name args (.ok result)] ∧
    (invoke c call w).1 = .ok result

/-! ### Concrete collaborators and worlds used to exercise the theorems -/

namespace Example

/-- A store of ten objects, object `r` holding `{ id: r }`. -/
def world : World :=
  { store := fun r => .obj [("id", .num r)], next := 10, log := [] }

/-- Collaborators that never throw: the parser wraps what it reads in a node
and leaves its argument alone, the crawler and the options processor mark the
object they work on, ids are the prefix followed by `+UNIQUE_ID`, and the
native sender answers with the name of the command. -/
def collab : Collaborators where
  parse v := .ok (v, .obj [("node", v)])
  crawl v := .ok (.obj [("crawled", v)])
  processOptions v := .ok (.obj [("processed", v)])
  generate _ pfx := .ok (pfx ++ "+UNIQUE_ID")
  send _ name _ := .ok (.str name)
  notify _ _ _ := .ok ()

/-- As `collab`, but the crawler throws on the node parsed from object `5`. -/
def collabCrawlThrows : Collaborators :=
  { collab with
    crawl := fun v =>
      match v with
      | .obj [("node", .obj [("id", .num 5)])] => .error ⟨"crawl failed"⟩
      | _ => .ok (.obj [("crawled", v)]) }

/-- As `collab`, but the native sender throws. -/
def collabSendThrows : Collaborators :=
  { collab with send := fun _ _ _ => .error ⟨"native failure"⟩ }

end Example

end Commands

/-! ## The component event registry

`ComponentEventsObserver.js` is not among the sources (only its test is), so
the registry is modelled from the specification. -/

namespace ComponentEventsObserver

/-- Modelled from the spec: the event kinds of the missing
`ComponentEventsObserver.js`, one per `notify<EventName>` entry point. -/
inductive EventKind where
  | componentDidAppear
  | componentDidDisappear
  | navigationButtonPressed
  | modalDismissed
  | searchBarUpdated
  | searchBarCancelPressed
  deriving Repr, DecidableEq

/-- Modelled from the spec: a component instance handed to `bindComponent` of
the missing `ComponentEventsObserver.js`, as far as the registry looks at it:
which instance it is, its ComponentId property (any JavaScript value, possibly
`undefined`), and its capability set, the event methods it implements. -/
structure Listener where
  ident : Nat
  componentId : Val
  implements : List EventKind

/-- Modelled from the spec: the ComponentRecord of the missing
`ComponentEventsObserver.js`, associating a ComponentId with a bound listener
and a unique subscription token. -/
structure ComponentRecord where
  componentId : String
  token : Nat
  listener : Listener

/-- Modelled from the spec: the Subscription handle returned by `bindComponent`
of the missing `ComponentEventsObserver.js`; it names one record. -/
structure Subscription where
  componentId : String
  token : Nat
  deriving Repr, DecidableEq

/-- Modelled from the spec: the state of the missing
`ComponentEventsObserver.js`, the records in binding order and the next token
to hand out. -/
structure Registry where
  records : List ComponentRecord
  nextToken : Nat

/-- Modelled from the spec: the InvalidComponent error of `bindComponent` in
the missing `ComponentEventsObserver.js`. -/
inductive RegistryError where
  | invalidComponent
  deriving Repr, DecidableEq

/-- Modelled from the spec: a registry of the missing
`ComponentEventsObserver.js` with no binding yet. -/
def Registry.empty : Registry :=
  { records := [], nextToken := 0 }

/-- Modelled from the spec: `bindComponent(instance)` of the missing
`ComponentEventsObserver.js`. It fails with InvalidComponent when the
ComponentId is absent or is not a string; otherwise it creates a record under
the instance's ComponentId, after the records already there, and returns a
Subscription for exactly this record. -/
def bindComponent (r : Registry) (component : Listener) :
    Except RegistryError (Subscription × Registry) :=
  match component.componentId with
  | .str componentId =>
    .ok ({ componentId := componentId, token := r.nextToken },
      { records := r.records ++
          [{ componentId := componentId, token := r.nextToken, listener := component }],
        nextToken := r.nextToken + 1 })
  | _ => .error .invalidComponent

/-- Modelled from the spec: `remove()` on a Subscription of the missing
`ComponentEventsObserver.js`. It deletes exactly the record of the
subscription; on a record already gone it does nothing. -/
def Subscription.remove (sub : Subscription) (r : Registry) : Registry :=
  { r with records := r.records.filter fun rec =>
      !(rec.componentId == sub.componentId && rec.token == sub.token) }

/-- Modelled from the spec: `unmounted(componentId)` of the missing
`ComponentEventsObserver.js`. It removes all records bound to that ComponentId. -/
def unmounted (componentId : String) (r : Registry) : Registry :=
  { r with records := r.records.filter fun rec => !(rec.componentId == componentId) }

/-- Modelled from the spec: a native event of the missing
`ComponentEventsObserver.js`, the ComponentId it is for and the other fields
of its payload. -/
structure ComponentEvent where
  componentId : String
  fields : List (String × Val)

/-- Modelled from the spec: one call of an event method on a bound listener,
made by a `notify<EventName>` of the missing `ComponentEventsObserver.js`. -/
structure Delivery where
  listener : Nat
  method : EventKind
  event : ComponentEvent

/-- Modelled from the spec: `notify<EventName>(event)` of the missing
`ComponentEventsObserver.js`. It looks up all records for `event.componentId`
and, in binding order, calls the method of the event kind on each listener
that implements it; the others are skipped. The result lists the calls made. -/
def notify (kind : EventKind) (event : ComponentEvent) (r : Registry) : List Delivery :=
  (r.records.filter fun rec =>
      rec.componentId == event.componentId && rec.listener.implements.contains kind).map
    fun rec => { listener := rec.listener.ident, method := kind, event := event }

/-- The listeners among `ls` that implement the method of `kind`, as the calls
a notification makes on them. -/
def deliveries (kind : EventKind) (event : ComponentEvent) (ls : List Listener) :
    List Delivery :=
  (ls.filter fun l => l.implements.contains kind).map
    fun l => { listener := l.ident, method := kind, event := event }

/-- Every token in use was handed out before: it lies below the next token. -/
def Registry.WellFormed (r : Registry) : Prop :=
  ∀ rec ∈ r.records, rec.token < r.nextToken

/-- Two screens of the test `supports multiple listeners with same componentId`,
both implementing `componentDidAppear`. -/
def Example.instance1 : Listener :=
  { ident := 1, componentId := .str "myCompId", implements := [.componentDidAppear] }

/-- The second screen of that test. -/
def Example.instance2 : Listener :=
  { ident := 2, componentId := .str "myCompId", implements := [.componentDidAppear] }

/-- The event the test notifies. -/
def Example.didAppear : ComponentEvent :=
  { componentId := "myCompId", fields := [("componentName", .str "doesnt matter")] }

end ComponentEventsObserver

namespace Commands

/-! ## The monad -/

@[simp] theorem run_pure {α : Type} (a : α) (w : World) :
    (pure a : M α) w = (.ok a, w) := rfl

theorem run_bind {α β : Type} (m : M α) (f : α → M β) (w : World) :
    (m >>= f) w =
      match m w with
      | (.ok a, w1) => f a w1
      | (.error e, w1) => (.error e, w1) := rfl

theorem run_map {α β : Type} (m : M α) (f : α → β) (w : World) :
    (f <$> m) w =
      match m w with
      | (.ok a, w1) => (.ok (f a), w1)
      | (.error e, w1) => (.error e, w1) := rfl

theorem run_bind_ok {α β : Type} {m : M α} {f : α → M β} {w w1 : World} {a : α}
    (h : m w = (.ok a, w1)) : (m >>= f) w = f a w1 := by
  rw [run_bind, h]

theorem run_bind_error {α β : Type} {m : M α} {f : α → M β} {w w1 : World} {e : JSError}
    (h : m w = (.error e, w1)) : (m >>= f) w = (.error e, w1) := by
  rw [run_bind, h]

instance : LawfulMonad M := LawfulMonad.mk' M
  (by
    intro α x
    funext w
    show (x >>= fun a => pure (id a)) w = x w
    rw [run_bind]
    rcases hx : x w with ⟨r, w1⟩
    cases r <;> rfl)
  (by intros; rfl)
  (by
    intro α β γ x f g
    funext w
    simp only [run_bind]
    rcases hx : x w with ⟨r, w1⟩
    cases r <;> rfl)

/-! ## Methods as two phases -/

theorem invoke_eq_phases (c : Collaborators) (call : Invocation) :
    invoke c call = transformPhase c call >>= dispatchPhase c call := by
  have h : parseThenCrawl c = fun x => parse c x >>= fun layout =>
      crawl c layout >>= fun _ => pure layout := rfl
  cases call <;>
    simp [invoke, transformPhase, dispatchPhase, dispatchWithId, dispatchPlain,
      Invocation.mintsId, Invocation.name, sendArgs, payloadOf, h,
      setRoot, setDefaultOptions, mergeOptions, showModal, dismissModal, dismissAllModals,
      push, pop, popTo, popToRoot, setStackRoot, showOverlay, dismissOverlay, getLaunchArgs]

/-! ## Runs of the primitives -/

theorem parseThenCrawl_parse_error {c : Collaborators} {x : Nat} {w : World} {e : JSError}
    (hp : c.parse (w.store x) = .error e) :
    parseThenCrawl c x w = (.error e, w.record (.parse x (.error e))) := by
  simp [parseThenCrawl, run_bind, parse, hp]

theorem parseThenCrawl_crawl_error {c : Collaborators} {x : Nat} {w : World} {e : JSError}
    {left node : Val} (hp : c.parse (w.store x) = .ok (left, node))
    (hc : c.crawl node = .error e) :
    parseThenCrawl c x w =
      (.error e, (((w.write x left).alloc node).record (.parse x (.ok w.next))).record
        (.crawl w.next (.error e))) := by
  simp [parseThenCrawl, run_bind, run_map, parse, crawl, hp, hc, World.record, World.alloc,
    World.write]

theorem parseThenCrawl_ok {c : Collaborators} {x : Nat} {w : World}
    {left node crawled : Val} (hp : c.parse (w.store x) = .ok (left, node))
    (hc : c.crawl node = .ok crawled) :
    parseThenCrawl c x w =
      (.ok w.next, ((((w.write x left).alloc node).record (.parse x (.ok w.next))).write
        w.next crawled).record (.crawl w.next (.ok ()))) := by
  simp [parseThenCrawl, run_bind, run_map, parse, crawl, hp, hc, World.record, World.alloc,
    World.write]

/-! ## Composing transform runs -/

theorem Consistent.append {α : Type} {r : Except JSError α} {new1 new2 : List Event}
    (h1 : ∀ ev ∈ new1, ev.thrown = none) (h2 : Consistent r new2) :
    Consistent r (new1 ++ new2) := by
  cases r with
  | ok a =>
    intro ev hev
    rcases List.mem_append.mp hev with h | h
    · exact h1 ev h
    · exact h2 ev h
  | error e =>
    obtain ⟨pre, last, hnew, hlast, hpre⟩ := h2
    refine ⟨new1 ++ pre, last, by simp [hnew], hlast, ?_⟩
    intro ev hev
    rcases List.mem_append.mp hev with h | h
    · exact h1 ev h
    · exact hpre ev h

theorem Transforms.pure {α : Type} {b : Nat} {a : α} {Q : α → Prop} (h : Q a) :
    Transforms b (pure a : M α) Q := by
  intro w _
  refine ⟨[], ⟨by simp, le_refl _, fun _ _ => rfl, by simp, ?_⟩, ?_⟩
  · intro ev hev
    simp at hev
  · intro a1 ha
    simp only [run_pure, Except.ok.injEq] at ha
    exact ha ▸ h

theorem Transforms.bind {α β : Type} {b : Nat} {m : M α} {f : α → M β} {Q : α → Prop}
    {R : β → Prop} (hm : Transforms b m Q) (hf : ∀ a, Q a → Transforms b (f a) R) :
    Transforms b (m >>= f) R := by
  intro w hb
  obtain ⟨new1, h1, hq⟩ := hm w hb
  rcases hmw : m w with ⟨r, w1⟩
  rw [hmw] at h1 hq
  cases r with
  | error e =>
    rw [run_bind_error hmw]
    exact ⟨new1, ⟨h1.log_eq, h1.next_le, h1.frame, h1.events, h1.consistent⟩, by simp⟩
  | ok a =>
    rw [run_bind_ok hmw]
    obtain ⟨new2, h2, hr⟩ := hf a (hq a rfl) w1 (le_trans hb h1.next_le)
    refine ⟨new1 ++ new2, ⟨?_, ?_, ?_, ?_, ?_⟩, hr⟩
    · rw [h2.log_eq, h1.log_eq, List.append_assoc]
    · exact le_trans h1.next_le h2.next_le
    · intro a1 ha1
      rw [h2.frame a1 ha1, h1.frame a1 ha1]
    · intro ev hev
      rcases List.mem_append.mp hev with h | h
      · exact h1.events ev h
      · exact h2.events ev h
    · exact Consistent.append h1.consistent h2.consistent

theorem cloneDeep_transforms (b x : Nat) : Transforms b (cloneDeep x) (fun y => b ≤ y) := by
  intro w hb
  refine ⟨[], ⟨by simp [cloneDeep, World.alloc], by simp [cloneDeep, World.alloc], ?_,
    by simp, ?_⟩, ?_⟩
  · intro a ha
    have : a ≠ w.next := by omega
    simp [cloneDeep, World.alloc, Function.update_noteq this]
  · intro ev hev
    simp at hev
  · intro a ha
    simp only [cloneDeep, Except.ok.injEq] at ha
    omega

theorem parse_transforms (c : Collaborators) {b x : Nat} (hx : b ≤ x) :
    Transforms b (parse c x) (fun y => b ≤ y) := by
  intro w hb
  cases hp : c.parse (w.store x) with
  | error e =>
    refine ⟨[.parse x (.error e)], ⟨by simp [parse, hp, World.record],
      by simp [parse, hp, World.record], by simp [parse, hp, World.record], ?_, ?_⟩,
      by simp [parse, hp]⟩
    · intro ev hev
      simp only [List.mem_singleton] at hev
      subst hev
      simp [Event.isTransform, Event.target, hx]
    · simp only [parse, hp]
      exact ⟨[], _, rfl, rfl, by simp⟩
  | ok p =>
    obtain ⟨left, node⟩ := p
    refine ⟨[.parse x (.ok w.next)],
      ⟨by simp [parse, hp, World.record, World.alloc, World.write],
      by simp [parse, hp, World.record, World.alloc, World.write], ?_, ?_, ?_⟩, ?_⟩
    · intro a ha
      have h1 : a ≠ w.next := by omega
      have h2 : a ≠ x := by omega
      simp [parse, hp, World.record, World.alloc, World.write, Function.update_noteq h1,
        Function.update_noteq h2]
    · intro ev hev
      simp only [List.mem_singleton] at hev
      subst hev
      simp [Event.isTransform, Event.target, hx]
    · simp only [parse, hp]
      intro ev hev
      simp only [List.mem_singleton] at hev
      subst hev
      rfl
    · intro a ha
      simp only [parse, hp, Except.ok.injEq] at ha
      omega

theorem crawl_transforms (c : Collaborators) {b x : Nat} (hx : b ≤ x) :
    Transforms b (crawl c x) (fun _ => True) := by
  intro w hb
  cases hp : c.crawl (w.store x) with
  | error e =>
    refine ⟨[.crawl x (.error e)], ⟨by simp [crawl, hp, World.record],
      by simp [crawl, hp, World.record], by simp [crawl, hp, World.record], ?_, ?_⟩, by simp⟩
    · intro ev hev
      simp only [List.mem_singleton] at hev
      subst hev
      simp [Event.isTransform, Event.target, hx]
    · simp only [crawl, hp]
      exact ⟨[], _, rfl, rfl, by simp⟩
  | ok left =>
    refine ⟨[.crawl x (.ok ())], ⟨by simp [crawl, hp, World.record, World.write],
      by simp [crawl, hp, World.record, World.write], ?_, ?_, ?_⟩, by simp⟩
    · intro a ha
      have h2 : a ≠ x := by omega
      simp [crawl, hp, World.record, World.write, Function.update_noteq h2]
    · intro ev hev
      simp only [List.mem_singleton] at hev
      subst hev
      simp [Event.isTransform, Event.target, hx]
    · simp only [crawl, hp]
      intro ev hev
      simp only [List.mem_singleton] at hev
      subst hev
      rfl

theorem processOptions_transforms (c : Collaborators) {b x : Nat} (hx : b ≤ x) :
    Transforms b (processOptions c x) (fun _ => True) := by
  intro w hb
  cases hp : c.processOptions (w.store x) with
  | error e =>
    refine ⟨[.processOptions x (.error e)], ⟨by simp [processOptions, hp, World.record],
      by simp [processOptions, hp, World.record],
      by simp [processOptions, hp, World.record], ?_, ?_⟩, by simp⟩
    · intro ev hev
      simp only [List.mem_singleton] at hev
      subst hev
      simp [Event.isTransform, Event.target, hx]
    · simp only [processOptions, hp]
      exact ⟨[], _, rfl, rfl, by simp⟩
  | ok left =>
    refine ⟨[.processOptions x (.ok ())],
      ⟨by simp [processOptions, hp, World.record, World.write],
      by simp [processOptions, hp, World.record, World.write], ?_, ?_, ?_⟩, by simp⟩
    · intro a ha
      have h2 : a ≠ x := by omega
      simp [processOptions, hp, World.record, World.write, Function.update_noteq h2]
    · intro ev hev
      simp only [List.mem_singleton] at hev
      subst hev
      simp [Event.isTransform, Event.target, hx]
    · simp only [processOptions, hp]
      intro ev hev
      simp only [List.mem_singleton] at hev
      subst hev
      rfl

theorem cloneDeepAll_transforms (b : Nat) (xs : List Nat) :
    Transforms b (cloneDeepAll xs) (fun ys => ∀ y ∈ ys, b ≤ y) := by
  induction xs with
  | nil => exact Transforms.pure (by simp)
  | cons x xs ih =>
    refine Transforms.bind (cloneDeep_transforms b x) (fun y hy => ?_)
    refine Transforms.bind ih (fun ys hys => ?_)
    refine Transforms.pure ?_
    intro z hz
    rcases List.mem_cons.mp hz with h | h
    · exact h ▸ hy
    · exact hys z h

theorem cloneDeepOpt_transforms (b : Nat) (xs : Option (List Nat)) :
    Transforms b (cloneDeepOpt xs) (fun ys => ∀ y ∈ ys.getD [], b ≤ y) := by
  cases xs with
  | none => exact Transforms.pure (by simp)
  | some xs =>
    refine Transforms.bind (cloneDeepAll_transforms b xs) (fun ys hys => ?_)
    exact Transforms.pure (by simpa using hys)

theorem cloneDeepRoot_transforms (b : Nat) (s : LayoutRoot) :
    Transforms b (cloneDeepRoot s)
      (fun i => b ≤ i.root ∧ (∀ y ∈ i.modals.getD [], b ≤ y) ∧
        ∀ y ∈ i.overlays.getD [], b ≤ y) := by
  refine Transforms.bind (cloneDeep_transforms b s.root) (fun r hr => ?_)
  refine Transforms.bind (cloneDeepOpt_transforms b s.modals) (fun ms hms => ?_)
  refine Transforms.bind (cloneDeepOpt_transforms b s.overlays) (fun os hos => ?_)
  exact Transforms.pure ⟨hr, hms, hos⟩

theorem parseThenCrawl_transforms (c : Collaborators) {b x : Nat} (hx : b ≤ x) :
    Transforms b (parseThenCrawl c x) (fun y => b ≤ y) := by
  refine Transforms.bind (parse_transforms c hx) (fun layout hl => ?_)
  refine Transforms.bind (crawl_transforms c hl) (fun _ _ => ?_)
  exact Transforms.pure hl

theorem mapArray_transforms (c : Collaborators) (b : Nat) (xs : List Nat)
    (hxs : ∀ x ∈ xs, b ≤ x) :
    Transforms b (mapArray (parseThenCrawl c) xs) (fun _ => True) := by
  induction xs with
  | nil => exact Transforms.pure trivial
  | cons x xs ih =>
    refine Transforms.bind (parseThenCrawl_transforms c (hxs x (by simp))) (fun y _ => ?_)
    refine Transforms.bind (ih (fun z hz => hxs z (by simp [hz]))) (fun ys _ => ?_)
    exact Transforms.pure trivial

theorem lodashMap_transforms (c : Collaborators) (b : Nat) (xs : Option (List Nat))
    (hxs : ∀ x ∈ xs.getD [], b ≤ x) :
    Transforms b (lodashMap xs (parseThenCrawl c)) (fun _ => True) := by
  cases xs with
  | none => exact Transforms.pure trivial
  | some xs => exact mapArray_transforms c b xs (by simpa using hxs)

theorem transformPhase_transforms (c : Collaborators) (b : Nat) (call : Invocation) :
    Transforms b (transformPhase c call) (fun _ => True) := by
  have layout : ∀ s : Nat, Transforms b
      (cloneDeep s >>= fun input => parseThenCrawl c input >>= fun layout =>
        (pure (Arg.ref layout) : M Arg)) (fun _ => True) := by
    intro s
    refine Transforms.bind (cloneDeep_transforms b s) (fun input hi => ?_)
    refine Transforms.bind (parseThenCrawl_transforms c hi) (fun _ _ => ?_)
    exact Transforms.pure trivial
  have options : ∀ o : Nat, Transforms b
      (cloneDeep o >>= fun input => processOptions c input >>= fun _ =>
        (pure (Arg.ref input) : M Arg)) (fun _ => True) := by
    intro o
    refine Transforms.bind (cloneDeep_transforms b o) (fun input hi => ?_)
    refine Transforms.bind (processOptions_transforms c hi) (fun _ _ => ?_)
    exact Transforms.pure trivial
  cases call with
  | setRoot s =>
    refine Transforms.bind (cloneDeepRoot_transforms b s) (fun input hi => ?_)
    refine Transforms.bind (parseThenCrawl_transforms c hi.1) (fun _ _ => ?_)
    refine Transforms.bind (lodashMap_transforms c b _ hi.2.1) (fun _ _ => ?_)
    refine Transforms.bind (lodashMap_transforms c b _ hi.2.2) (fun _ _ => ?_)
    exact Transforms.pure trivial
  | setDefaultOptions o => exact options o
  | mergeOptions _ o => exact options o
  | showModal s => exact layout s
  | push _ s => exact layout s
  | setStackRoot _ s => exact layout s
  | showOverlay s => exact layout s
  | pop _ o => exact Transforms.pure trivial
  | dismissModal _ => exact Transforms.pure trivial
  | dismissAllModals => exact Transforms.pure trivial
  | popTo _ => exact Transforms.pure trivial
  | popToRoot _ => exact Transforms.pure trivial
  | dismissOverlay _ => exact Transforms.pure trivial
  | getLaunchArgs => exact Transforms.pure trivial

/-! ## Runs of the dispatch phase and of whole invocations -/

theorem dispatchPhase_run (c : Collaborators) (call : Invocation) (t : Arg) (w : World) :
    ∃ new, Dispatched call t (dispatchPhase c call t w).1 new ∧
      (dispatchPhase c call t w).2 = { w with log := w.log ++ new } := by
  cases hm : call.mintsId with
  | true =>
    simp only [dispatchPhase, hm, if_true, dispatchWithId, run_bind, generate]
    cases hg : c.generate w call.name with
    | error e => exact ⟨_, .generateThrew e hm, rfl⟩
    | ok commandId =>
      simp only [send]
      cases hs : c.send (w.record (.generate call.name (.ok commandId))) call.name
          (sendArgs call commandId t) with
      | error e => exact ⟨_, .sendThrew commandId e hm, by simp [World.record]⟩
      | ok result =>
        simp only [notify]
        cases hn : c.notify ((w.record (.generate call.name (.ok commandId))).record
            (.send call.name (sendArgs call commandId t) (.ok result))) call.name
            (payloadOf call commandId t) with
        | error e => exact ⟨_, .notifyThrew commandId result e hm, by simp [World.record]⟩
        | ok u => exact ⟨_, .done commandId result hm, by simp [World.record]⟩
  | false =>
    simp only [dispatchPhase, hm, Bool.false_eq_true, if_false, dispatchPlain, run_bind,
      run_map, send]
    cases hs : c.send w call.name (sendArgs call "" t) with
    | error e => exact ⟨_, .plainSendThrew e hm, by simp [World.record]⟩
    | ok result =>
      simp only [notify]
      cases hn : c.notify (w.record (.send call.name (sendArgs call "" t) (.ok result)))
          call.name (payloadOf call "" t) with
      | error e => exact ⟨_, .plainNotifyThrew result e hm, by simp [World.record]⟩
      | ok u => exact ⟨_, .plainDone result hm, by simp [World.record]⟩

/-- Every invocation either fails in its transform phase, or completes that
phase with a value `t` and goes through one of the ways of `Dispatched`. -/
theorem invoke_cases (c : Collaborators) (call : Invocation) (w : World) :
    ∃ r1 w1 new1, transformPhase c call w = (r1, w1) ∧ TransformRun w.next w r1 w1 new1 ∧
      ((∃ e, r1 = .error e ∧ (invoke c call w).1 = .error e ∧ (invoke c call w).2 = w1 ∧
          trace c call w = new1) ∨
       (∃ t new2 r, r1 = .ok t ∧ (invoke c call w).1 = r ∧ Dispatched call t r new2 ∧
          (invoke c call w).2 = { w1 with log := w1.log ++ new2 } ∧
          trace c call w = new1 ++ new2)) := by
  obtain ⟨new1, h1, _⟩ := transformPhase_transforms c w.next call w (le_refl _)
  rcases hr : transformPhase c call w with ⟨r1, w1⟩
  rw [hr] at h1
  refine ⟨r1, w1, new1, rfl, h1, ?_⟩
  cases r1 with
  | error e =>
    left
    have hinv : invoke c call w = (.error e, w1) := by
      rw [invoke_eq_phases, run_bind_error hr]
    have hl : w1.log = w.log ++ new1 := h1.log_eq
    refine ⟨e, rfl, by rw [hinv], by rw [hinv], ?_⟩
    simp [trace, hinv, hl]
  | ok t =>
    right
    have hinv : invoke c call w = dispatchPhase c call t w1 := by
      rw [invoke_eq_phases, run_bind_ok hr]
    obtain ⟨new2, hd, hw2⟩ := dispatchPhase_run c call t w1
    have hl : w1.log = w.log ++ new1 := h1.log_eq
    refine ⟨t, new2, _, rfl, rfl, by rw [hinv]; exact hd, by rw [hinv]; exact hw2, ?_⟩
    simp [trace, hinv, hw2, hl, List.append_assoc]

/-! ## Properties of the dispatcher -/

theorem Event.not_dispatch_of_isTransform {ev : Event} (h : ev.isTransform = true) :
    ev.isSend = false ∧ ev.isNotify = false ∧ ev.isGenerate = false := by
  cases ev <;> simp_all [Event.isTransform, Event.isSend, Event.isNotify, Event.isGenerate]

theorem Event.isTransform_of_isLayoutTransform {ev : Event}
    (h : ev.isLayoutTransform = true) : ev.isTransform = true := by
  cases ev <;> simp_all [Event.isTransform, Event.isLayoutTransform]

theorem TransformRun.filter_eq_nil {α : Type} {b : Nat} {w w1 : World}
    {r : Except JSError α} {new : List Event} (h : TransformRun b w r w1 new)
    (p : Event → Bool) (hp : ∀ ev, ev.isTransform = true → p ev = false) :
    new.filter p = [] := by
  rw [List.filter_eq_nil_iff]
  intro ev hev
  simp [hp ev (h.events ev hev).1]

theorem Consistent.thrown_of_error {α : Type} {e : JSError} {new : List Event}
    (h : Consistent (.error e : Except JSError α) new) : ∃ ev ∈ new, ev.thrown = some e := by
  obtain ⟨pre, last, hnew, hlast, _⟩ := h
  exact ⟨last, by simp [hnew], hlast⟩

theorem Consistent.eq_of_thrown {α : Type} {e e1 : JSError} {new : List Event} {ev : Event}
    (h : Consistent (.error e : Except JSError α) new) (hev : ev ∈ new)
    (ht : ev.thrown = some e1) : e1 = e := by
  obtain ⟨pre, last, hnew, hlast, hpre⟩ := h
  subst hnew
  rcases List.mem_append.mp hev with h1 | h1
  · rw [hpre ev h1] at ht
    cases ht
  · simp only [List.mem_singleton] at h1
    subst h1
    rw [hlast] at ht
    exact (Option.some.inj ht).symm

/-- C1. For each of the fourteen methods, when no collaborator call of the
invocation throws, the calls to the native sender and to the commands observer
are exactly one `send` of the method's name followed by one `notify` of the
method's name: one of each, the native call first. -/
theorem invocation_sends_once_then_notifies_once (c : Collaborators) (call : Invocation)
    (w : World) (h : ∀ ev ∈ trace c call w, ev.thrown = none) :
    (∃ args result payload,
      (trace c call w).filter (fun ev => ev.isSend || ev.isNotify) =
        [.send call.name args (.ok result), .notify call.name payload (.ok ())]) ∧
    (trace c call w).countP Event.isSend = 1 ∧
    (trace c call w).countP Event.isNotify = 1 := by
  obtain ⟨r1, w1, new1, _, h1, hcase⟩ := invoke_cases c call w
  have hnil : ∀ p : Event → Bool, (∀ ev, ev.isTransform = true → p ev = false) →
      new1.filter p = [] := fun p hp => h1.filter_eq_nil p hp
  have hboth := hnil (fun ev => ev.isSend || ev.isNotify) (fun ev hev => by
    simp [(Event.not_dispatch_of_isTransform hev).1, (Event.not_dispatch_of_isTransform hev).2.1])
  have hsend := hnil Event.isSend (fun ev hev => (Event.not_dispatch_of_isTransform hev).1)
  have hnotify := hnil Event.isNotify (fun ev hev => (Event.not_dispatch_of_isTransform hev).2.1)
  rcases hcase with ⟨e, hr, _, _, htr⟩ | ⟨t, new2, r, hr, _, hd, _, htr⟩
  · subst hr
    obtain ⟨ev, hev, hthrown⟩ := h1.consistent.thrown_of_error
    rw [h ev (htr ▸ hev)] at hthrown
    cases hthrown
  · rw [htr] at h ⊢
    simp only [List.countP_eq_length_filter, List.filter_append, hboth, hsend, hnotify,
      List.nil_append]
    cases hd with
    | done commandId result hm =>
      exact ⟨⟨sendArgs call commandId t, result, payloadOf call commandId t,
        by simp [Event.isSend, Event.isNotify]⟩,
        by simp [Event.isSend], by simp [Event.isNotify]⟩
    | plainDone result hm =>
      exact ⟨⟨sendArgs call "" t, result, payloadOf call "" t,
        by simp [Event.isSend, Event.isNotify]⟩,
        by simp [Event.isSend], by simp [Event.isNotify]⟩
    | generateThrew e hm =>
      exact absurd (h (.generate call.name (.error e)) (by simp)) (by simp [Event.thrown])
    | sendThrew commandId e hm =>
      exact absurd (h (.send call.name (sendArgs call commandId t) (.error e)) (by simp))
        (by simp [Event.thrown])
    | notifyThrew commandId result e hm =>
      exact absurd (h (.notify call.name (payloadOf call commandId t) (.error e)) (by simp))
        (by simp [Event.thrown])
    | plainSendThrew e hm =>
      exact absurd (h (.send call.name (sendArgs call "" t) (.error e)) (by simp))
        (by simp [Event.thrown])
    | plainNotifyThrew result e hm =>
      exact absurd (h (.notify call.name (payloadOf call "" t) (.error e)) (by simp))
        (by simp [Event.thrown])

theorem invocation_sends_once_then_notifies_once_witness :
    (∃ args result payload,
      (trace Example.collab (.push "compA" 3) Example.world).filter
          (fun ev => ev.isSend || ev.isNotify) =
        [.send "push" args (.ok result), .notify "push" payload (.ok ())]) ∧
    (trace Example.collab (.push "compA" 3) Example.world).countP Event.isSend = 1 ∧
    (trace Example.collab (.push "compA" 3) Example.world).countP Event.isNotify = 1 :=
  invocation_sends_once_then_notifies_once Example.collab (.push "compA" 3) Example.world
    (by decide)

theorem Dispatched.not_transform {call : Invocation} {t : Arg} {r : Except JSError Val}
    {new : List Event} (hd : Dispatched call t r new) :
    ∀ ev ∈ new, ev.isTransform = false ∧ ev.target = none := by
  cases hd <;> simp [Event.isTransform, Event.target]

/-- C2. Whenever `layoutTreeParser.parse` or `layoutTreeCrawler.crawl` throws
during an invocation (for `setRoot`: on the root, on any modal or on any
overlay, however late), the invocation fails with that error and its trace
holds no call to the native sender and none to the commands observer. -/
theorem transform_failure_fails_before_dispatch (c : Collaborators) (call : Invocation)
    (w : World) (ev : Event) (e : JSError) (hev : ev ∈ trace c call w)
    (hl : ev.isLayoutTransform = true) (ht : ev.thrown = some e) :
    (invoke c call w).1 = .error e ∧
      ∀ ev1 ∈ trace c call w, ev1.isSend = false ∧ ev1.isNotify = false := by
  obtain ⟨r1, w1, new1, _, h1, hcase⟩ := invoke_cases c call w
  rcases hcase with ⟨e1, hr, hres, _, htr⟩ | ⟨t, new2, r, hr, _, hd, _, htr⟩
  · subst hr
    rw [htr] at hev ⊢
    have hee : e = e1 := h1.consistent.eq_of_thrown hev ht
    subst hee
    refine ⟨hres, fun ev1 hev1 => ?_⟩
    have := Event.not_dispatch_of_isTransform (h1.events ev1 hev1).1
    exact ⟨this.1, this.2.1⟩
  · subst hr
    rw [htr] at hev
    rcases List.mem_append.mp hev with h | h
    · have hnone : ev.thrown = none := h1.consistent ev h
      rw [hnone] at ht
      cases ht
    · have := (hd.not_transform ev h).1
      rw [Event.isTransform_of_isLayoutTransform hl] at this
      cases this

theorem transform_failure_fails_before_dispatch_witness :
    (invoke Example.collabCrawlThrows
        (.setRoot { root := 1, modals := some [2, 3], overlays := some [4, 5] })
        Example.world).1 = .error ⟨"crawl failed"⟩ ∧
      ∀ ev1 ∈ trace Example.collabCrawlThrows
          (.setRoot { root := 1, modals := some [2, 3], overlays := some [4, 5] })
          Example.world,
        ev1.isSend = false ∧ ev1.isNotify = false :=
  transform_failure_fails_before_dispatch Example.collabCrawlThrows
    (.setRoot { root := 1, modals := some [2, 3], overlays := some [4, 5] }) Example.world
    (.crawl 19 (.error ⟨"crawl failed"⟩)) ⟨"crawl failed"⟩
    (List.getElem?_mem (n := 9) rfl)
    rfl rfl

/-- C7. If the native-sender call of an invocation throws, the invocation fails
with that very error: nothing catches it, replaces it or returns normally. -/
theorem native_sender_error_propagates (c : Collaborators) (call : Invocation) (w : World)
    (n : String) (args : List Arg) (e : JSError)
    (h : Event.send n args (.error e) ∈ trace c call w) :
    (invoke c call w).1 = .error e := by
  obtain ⟨r1, w1, new1, _, h1, hcase⟩ := invoke_cases c call w
  have hnot : Event.send n args (.error e) ∉ new1 := by
    intro hmem
    have := (h1.events _ hmem).1
    simp [Event.isTransform] at this
  rcases hcase with ⟨e1, _, _, _, htr⟩ | ⟨t, new2, r, _, hres, hd, _, htr⟩
  · rw [htr] at h
    exact absurd h hnot
  · rw [htr] at h
    rcases List.mem_append.mp h with h | h
    · exact absurd h hnot
    · rw [hres]
      cases hd <;> simp at h <;> simp [h]

theorem native_sender_error_propagates_witness :
    (invoke Example.collabSendThrows (.showModal 3) Example.world).1 =
      .error ⟨"native failure"⟩ :=
  native_sender_error_propagates Example.collabSendThrows (.showModal 3) Example.world
    "showModal" [.str "showModal+UNIQUE_ID", .ref 11] ⟨"native failure"⟩
    (List.getElem?_mem (n := 3) rfl)

/-- An invocation in which no collaborator throws completes its transform
phase and goes through the whole dispatch phase. -/
theorem invoke_cases_of_no_throw (c : Collaborators) (call : Invocation) (w : World)
    (h : ∀ ev ∈ trace c call w, ev.thrown = none) :
    ∃ t w1 new1, transformPhase c call w = (.ok t, w1) ∧
      TransformRun w.next w (.ok t : Except JSError Arg) w1 new1 ∧
      ((call.mintsId = true ∧ ∃ commandId result,
          trace c call w = new1 ++
            [.generate call.name (.ok commandId),
             .send call.name (sendArgs call commandId t) (.ok result),
             .notify call.name (payloadOf call commandId t) (.ok ())] ∧
          (invoke c call w).1 = .ok result) ∨
       (call.mintsId = false ∧ ∃ result,
          trace c call w = new1 ++
            [.send call.name (sendArgs call "" t) (.ok result),
             .notify call.name (payloadOf call "" t) (.ok ())] ∧
          (invoke c call w).1 = .ok Val.undefined)) := by
  obtain ⟨r1, w1, new1, htp, h1, hcase⟩ := invoke_cases c call w
  rcases hcase with ⟨e, hr, _, _, htr⟩ | ⟨t, new2, r, hr, hres, hd, _, htr⟩
  · subst hr
    obtain ⟨ev, hev, hthrown⟩ := h1.consistent.thrown_of_error
    rw [h ev (htr ▸ hev)] at hthrown
    cases hthrown
  · subst hr
    refine ⟨t, w1, new1, htp, h1, ?_⟩
    rw [htr] at h
    cases hd with
    | done commandId result hm => exact Or.inl ⟨hm, commandId, result, htr, hres⟩
    | plainDone result hm => exact Or.inr ⟨hm, result, htr, hres⟩
    | generateThrew e hm =>
      exact absurd (h (.generate call.name (.error e)) (by simp)) (by simp [Event.thrown])
    | sendThrew commandId e hm =>
      exact absurd (h (.send call.name (sendArgs call commandId t) (.error e)) (by simp))
        (by simp [Event.thrown])
    | notifyThrew commandId result e hm =>
      exact absurd (h (.notify call.name (payloadOf call commandId t) (.error e)) (by simp))
        (by simp [Event.thrown])
    | plainSendThrew e hm =>
      exact absurd (h (.send call.name (sendArgs call "" t) (.error e)) (by simp))
        (by simp [Event.thrown])
    | plainNotifyThrew result e hm =>
      exact absurd (h (.notify call.name (payloadOf call "" t) (.error e)) (by simp))
        (by simp [Event.thrown])

theorem sendArgs_of_mintsId {call : Invocation} (hm : call.mintsId = true) (commandId : String)
    (t : Arg) : ∃ rest, sendArgs call commandId t = .str commandId :: rest := by
  cases call <;> simp_all [sendArgs, Invocation.mintsId]

/-- C3, refuted as stated: `mergeOptions` calls the native sender without ever
calling `uniqueIdProvider.generate`. -/
theorem mergeOptions_mints_no_commandId :
    ¬ MintsCommandId Example.collab (.mergeOptions "compA" 3) Example.world := by
  intro h
  obtain ⟨_, _, _, _, hgen⟩ := h.1 "mergeOptions" [.str "compA", .ref 10]
    (.ok (.str "mergeOptions")) (List.getElem?_mem (n := 1) rfl)
  have hnone : (trace Example.collab (.mergeOptions "compA" 3) Example.world).filter
      Event.isGenerate = [] := rfl
  rw [hnone] at hgen
  cases hgen

/-- C3, amended. Each of the twelve methods other than `setDefaultOptions` and
`mergeOptions` mints its command id by one call of `uniqueIdProvider.generate`
with the method's own name, and the native-sender operation of that name gets
this id as its first argument; `setDefaultOptions` and `mergeOptions` never call
`generate`. -/
theorem commandId_minted_under_method_name (c : Collaborators) (call : Invocation)
    (w : World) :
    (call.mintsId = true → MintsCommandId c call w) ∧
    (call.mintsId = false → (trace c call w).filter Event.isGenerate = []) := by
  obtain ⟨r1, w1, new1, _, h1, hcase⟩ := invoke_cases c call w
  have hgen : new1.filter Event.isGenerate = [] :=
    h1.filter_eq_nil _ (fun ev hev => (Event.not_dispatch_of_isTransform hev).2.2)
  have hnot : ∀ n args out, Event.send n args out ∉ new1 := by
    intro n args out hmem
    have := (h1.events _ hmem).1
    simp [Event.isTransform] at this
  refine ⟨fun hm => ⟨?_, ?_⟩, fun hm => ?_⟩
  · intro n args out hmem
    rcases hcase with ⟨e1, _, _, _, htr⟩ | ⟨t, new2, r, _, _, hd, _, htr⟩
    · rw [htr] at hmem
      exact absurd hmem (hnot n args out)
    · rw [htr] at hmem ⊢
      rcases List.mem_append.mp hmem with hmem | hmem
      · exact absurd hmem (hnot n args out)
      · rw [List.filter_append, hgen, List.nil_append]
        cases hd with
        | generateThrew e _ => simp at hmem
        | sendThrew commandId e _ =>
          obtain ⟨rest, hrest⟩ := sendArgs_of_mintsId hm commandId t
          simp only [List.mem_cons, List.mem_singleton, Event.send.injEq, List.not_mem_nil,
            or_false, false_or, reduceCtorEq] at hmem
          exact ⟨hmem.1, commandId, rest, by rw [hmem.2.1, hrest], by simp [Event.isGenerate]⟩
        | notifyThrew commandId result e _ =>
          obtain ⟨rest, hrest⟩ := sendArgs_of_mintsId hm commandId t
          simp only [List.mem_cons, List.mem_singleton, Event.send.injEq, List.not_mem_nil,
            or_false, false_or, reduceCtorEq] at hmem
          exact ⟨hmem.1, commandId, rest, by rw [hmem.2.1, hrest], by simp [Event.isGenerate]⟩
        | done commandId result _ =>
          obtain ⟨rest, hrest⟩ := sendArgs_of_mintsId hm commandId t
          simp only [List.mem_cons, List.mem_singleton, Event.send.injEq, List.not_mem_nil,
            or_false, false_or, reduceCtorEq] at hmem
          exact ⟨hmem.1, commandId, rest, by rw [hmem.2.1, hrest], by simp [Event.isGenerate]⟩
        | plainSendThrew e hm1 => rw [hm] at hm1; cases hm1
        | plainNotifyThrew result e hm1 => rw [hm] at hm1; cases hm1
        | plainDone result hm1 => rw [hm] at hm1; cases hm1
  · intro hno
    obtain ⟨t, w2, new2, _, _, hc⟩ := invoke_cases_of_no_throw c call w hno
    rcases hc with ⟨_, commandId, result, htr, _⟩ | ⟨hm1, _⟩
    · exact ⟨sendArgs call commandId t, .ok result, by rw [htr]; simp⟩
    · rw [hm] at hm1; cases hm1
  · rcases hcase with ⟨e1, _, _, _, htr⟩ | ⟨t, new2, r, _, _, hd, _, htr⟩
    · rw [htr, hgen]
    · rw [htr, List.filter_append, hgen, List.nil_append]
      cases hd with
      | plainSendThrew e _ => simp [Event.isGenerate]
      | plainNotifyThrew result e _ => simp [Event.isGenerate]
      | plainDone result _ => simp [Event.isGenerate]
      | generateThrew e hm1 => rw [hm] at hm1; cases hm1
      | sendThrew commandId e hm1 => rw [hm] at hm1; cases hm1
      | notifyThrew commandId result e hm1 => rw [hm] at hm1; cases hm1
      | done commandId result hm1 => rw [hm] at hm1; cases hm1

theorem commandId_minted_under_method_name_witness :
    (∃ commandId rest,
      [Arg.str "push+UNIQUE_ID", .str "compA", .ref 11] = .str commandId :: rest ∧
      (trace Example.collab (.push "compA" 3) Example.world).filter Event.isGenerate =
        [.generate "push" (.ok commandId)]) ∧
    (trace Example.collab (.setDefaultOptions 3) Example.world).filter Event.isGenerate = [] :=
  ⟨(((commandId_minted_under_method_name Example.collab (.push "compA" 3) Example.world).1
      rfl).1 "push" [.str "push+UNIQUE_ID", .str "compA", .ref 11] (.ok (.str "push"))
      (List.getElem?_mem (n := 3) rfl)).2,
   (commandId_minted_under_method_name Example.collab (.setDefaultOptions 3)
      Example.world).2 rfl⟩

/-- C5, refuted as stated: `setDefaultOptions` completes without any
collaborator throwing, the native sender returns a value, and the method
returns `undefined` instead of it. -/
theorem setDefaultOptions_drops_native_result :
    (∀ ev ∈ trace Example.collab (.setDefaultOptions 3) Example.world, ev.thrown = none) ∧
    ¬ ReturnsNativeResult Example.collab (.setDefaultOptions 3) Example.world := by
  refine ⟨by decide, ?_⟩
  rintro ⟨args, result, hsend, hres⟩
  have hret : (invoke Example.collab (.setDefaultOptions 3) Example.world).1 =
      .ok Val.undefined := rfl
  have hsent : (trace Example.collab (.setDefaultOptions 3) Example.world).filter
      Event.isSend = [.send "setDefaultOptions" [.ref 10] (.ok (.str "setDefaultOptions"))] := rfl
  rw [hret] at hres
  rw [hsent] at hsend
  simp only [List.cons.injEq, Event.send.injEq, Except.ok.injEq, and_true] at hsend
  rw [← Except.ok.inj hres] at hsend
  cases hsend.2.2

/-- C5, amended. When no collaborator throws, each of the twelve methods other
than `setDefaultOptions` and `mergeOptions` returns exactly the value its one
native-sender call returned; `setDefaultOptions` and `mergeOptions` return
`undefined` whatever the native sender returned. -/
theorem native_result_returned (c : Collaborators) (call : Invocation) (w : World)
    (h : ∀ ev ∈ trace c call w, ev.thrown = none) :
    (call.mintsId = true → ReturnsNativeResult c call w) ∧
    (call.mintsId = false → (invoke c call w).1 = .ok Val.undefined) := by
  obtain ⟨t, w1, new1, _, h1, hc⟩ := invoke_cases_of_no_throw c call w h
  have hsend : new1.filter Event.isSend = [] :=
    h1.filter_eq_nil _ (fun ev hev => (Event.not_dispatch_of_isTransform hev).1)
  rcases hc with ⟨hm, commandId, result, htr, hres⟩ | ⟨hm, result, htr, hres⟩
  · refine ⟨fun _ => ⟨sendArgs call commandId t, result, ?_, hres⟩, fun hm1 => ?_⟩
    · rw [htr, List.filter_append, hsend]
      simp [Event.isSend]
    · rw [hm] at hm1; cases hm1
  · exact ⟨fun hm1 => (by rw [hm] at hm1; cases hm1), fun _ => hres⟩

theorem native_result_returned_witness :
    ReturnsNativeResult Example.collab (.pop "compA" .undefined) Example.world ∧
    (invoke Example.collab (.mergeOptions "compA" 3) Example.world).1 = .ok Val.undefined :=
  ⟨(native_result_returned Example.collab (.pop "compA" .undefined) Example.world
      (by decide)).1 rfl,
   (native_result_returned Example.collab (.mergeOptions "compA" 3) Example.world
      (by decide)).2 rfl⟩

/-- C6. Every in-place transform of an invocation (`parse`, `crawl`,
`processOptions`) is applied to an object created during the invocation (the
deep copy, or a node parsed from it), never to one the caller supplied, and so
every layout or options object the caller supplies (an object of the store at
the time of the call) holds after the invocation what it held before, whatever
the transforms write into their arguments. -/
theorem caller_objects_untouched (c : Collaborators) (call : Invocation) (w : World)
    (hw : ∀ r ∈ call.supplied, r < w.next) :
    (∀ r ∈ call.supplied, (invoke c call w).2.store r = w.store r) ∧
    (∀ ev ∈ trace c call w, ∀ a, ev.target = some a → w.next ≤ a ∧ a ∉ call.supplied) := by
  obtain ⟨r1, w1, new1, _, h1, hcase⟩ := invoke_cases c call w
  have hfresh : ∀ a, w.next ≤ a → a ∉ call.supplied := fun a ha hmem => by
    have := hw a hmem
    omega
  have hstore : (invoke c call w).2.store = w1.store := by
    rcases hcase with ⟨_, _, _, hw1, _⟩ | ⟨_, _, _, _, _, _, hw1, _⟩ <;> rw [hw1]
  refine ⟨fun r hr => by rw [hstore]; exact h1.frame r (hw r hr), ?_⟩
  intro ev hev a ha
  rcases hcase with ⟨_, _, _, _, htr⟩ | ⟨t, new2, r, _, _, hd, _, htr⟩
  · rw [htr] at hev
    exact ⟨(h1.events ev hev).2 a ha, hfresh a ((h1.events ev hev).2 a ha)⟩
  · rw [htr] at hev
    rcases List.mem_append.mp hev with hev | hev
    · exact ⟨(h1.events ev hev).2 a ha, hfresh a ((h1.events ev hev).2 a ha)⟩
    · rw [(hd.not_transform ev hev).2] at ha
      cases ha

theorem caller_objects_untouched_witness :
    (∀ r ∈ [1, 2, 3, 4, 5],
      (invoke Example.collab
        (.setRoot { root := 1, modals := some [2, 3], overlays := some [4, 5] })
        Example.world).2.store r = Example.world.store r) ∧
    (∀ ev ∈ trace Example.collab
        (.setRoot { root := 1, modals := some [2, 3], overlays := some [4, 5] }) Example.world,
      ∀ a, ev.target = some a → 10 ≤ a ∧ a ∉ [1, 2, 3, 4, 5]) :=
  caller_objects_untouched Example.collab
    (.setRoot { root := 1, modals := some [2, 3], overlays := some [4, 5] }) Example.world
    (by decide)

/-! ## Successful transform runs in detail -/

theorem bind_ok_inv {α β : Type} {m : M α} {f : α → M β} {w w2 : World} {b : β}
    (h : (m >>= f) w = (.ok b, w2)) : ∃ a w1, m w = (.ok a, w1) ∧ f a w1 = (.ok b, w2) := by
  rw [run_bind] at h
  rcases hm : m w with ⟨r, w1⟩
  rw [hm] at h
  cases r with
  | error e => simp at h
  | ok a => exact ⟨a, w1, rfl, h⟩

theorem pure_ok_inv {α : Type} {a b : α} {w w1 : World}
    (h : (pure a : M α) w = (.ok b, w1)) : a = b ∧ w = w1 := by
  simpa using h

theorem parseThenCrawl_ok_inv {c : Collaborators} {x n : Nat} {w w1 : World}
    (h : parseThenCrawl c x w = (.ok n, w1)) :
    ∃ left node crawled, c.parse (w.store x) = .ok (left, node) ∧ c.crawl node = .ok crawled ∧
      n = w.next ∧
      w1 = ((((w.write x left).alloc node).record (.parse x (.ok w.next))).write
        w.next crawled).record (.crawl w.next (.ok ())) := by
  cases hp : c.parse (w.store x) with
  | error e =>
    rw [parseThenCrawl_parse_error hp] at h
    simp at h
  | ok p =>
    obtain ⟨left, node⟩ := p
    cases hc : c.crawl node with
    | error e =>
      rw [parseThenCrawl_crawl_error hp hc] at h
      simp at h
    | ok crawled =>
      rw [parseThenCrawl_ok hp hc] at h
      simp only [Prod.mk.injEq, Except.ok.injEq] at h
      exact ⟨left, node, crawled, rfl, hc, h.1.symm, h.2.symm⟩

theorem mapArray_cons_ok_inv {f : Nat → M Nat} {x : Nat} {xs ys : List Nat} {w w2 : World}
    (h : mapArray f (x :: xs) w = (.ok ys, w2)) :
    ∃ y zs w1, f x w = (.ok y, w1) ∧ mapArray f xs w1 = (.ok zs, w2) ∧ ys = y :: zs := by
  obtain ⟨y, w1, hy, h1⟩ := bind_ok_inv (m := f x) h
  obtain ⟨zs, w3, hzs, h2⟩ := bind_ok_inv (m := mapArray f xs) h1
  obtain ⟨h3, h4⟩ := pure_ok_inv h2
  exact ⟨y, zs, w1, hy, h4 ▸ hzs, h3.symm⟩

theorem mapArray_append_ok {f : Nat → M Nat} {xs ys as bs : List Nat} {w w1 w2 : World}
    (h1 : mapArray f xs w = (.ok as, w1)) (h2 : mapArray f ys w1 = (.ok bs, w2)) :
    mapArray f (xs ++ ys) w = (.ok (as ++ bs), w2) := by
  induction xs generalizing w as with
  | nil =>
    obtain ⟨ha, hw⟩ := pure_ok_inv h1
    subst ha hw
    simpa using h2
  | cons x xs ih =>
    obtain ⟨y, zs, w3, hy, hzs, has⟩ := mapArray_cons_ok_inv h1
    subst has
    have := ih hzs
    show (f x >>= fun y => mapArray f (xs ++ ys) >>= fun ys => pure (y :: ys)) w = _
    rw [run_bind_ok hy, run_bind_ok this]
    rfl

theorem mapArray_length {f : Nat → M Nat} {xs ys : List Nat} {w w1 : World}
    (h : mapArray f xs w = (.ok ys, w1)) : ys.length = xs.length := by
  induction xs generalizing w ys with
  | nil =>
    obtain ⟨ha, _⟩ := pure_ok_inv h
    subst ha
    rfl
  | cons x xs ih =>
    obtain ⟨y, zs, w3, _, hzs, has⟩ := mapArray_cons_ok_inv h
    subst has
    simp [ih hzs]

theorem mapArray_singleton {f : Nat → M Nat} {x y : Nat} {w w1 : World}
    (h : f x w = (.ok y, w1)) : mapArray f [x] w = (.ok [y], w1) := by
  show (f x >>= fun y => (pure [] : M (List Nat)) >>= fun ys => pure (y :: ys)) w = _
  rw [run_bind_ok h]
  rfl

/-- A successful `_.map` of parse-then-crawl over `xs`: the nodes are the next
free references in order and the trace grows by the parse and the crawl of each
element in turn; when `xs` are distinct existing objects, node `i` ends up
holding what element `i` is transformed into, and no other existing object
changes. -/
theorem mapArray_ok (c : Collaborators) (xs : List Nat) :
    ∀ (w w1 : World) (nodes : List Nat),
      mapArray (parseThenCrawl c) xs w = (.ok nodes, w1) →
      nodes = List.range' w.next xs.length ∧ w1.next = w.next + xs.length ∧
      w1.log = w.log ++ (xs.zip nodes).flatMap steps ∧
      (xs.Nodup → (∀ x ∈ xs, x < w.next) →
        nodes.map (fun n => some (w1.store n)) = xs.map (fun x => transformOf c (w.store x)) ∧
        ∀ a, a < w.next → a ∉ xs → w1.store a = w.store a) := by
  induction xs with
  | nil =>
    intro w w1 nodes h
    obtain ⟨ha, hw⟩ := pure_ok_inv h
    subst ha hw
    simp
  | cons x xs ih =>
    intro w w1 nodes h
    obtain ⟨y, zs, w2, hy, hzs, hnodes⟩ := mapArray_cons_ok_inv h
    obtain ⟨left, node, crawled, hp, hc, hyn, hw2⟩ := parseThenCrawl_ok_inv hy
    have hnext2 : w2.next = w.next + 1 := by rw [hw2]; rfl
    have hlog2 : w2.log = w.log ++ steps (x, w.next) := by
      rw [hw2]; simp [World.record, World.write, World.alloc, steps]
    have hstore2 : ∀ a, a ≠ x → a ≠ w.next → w2.store a = w.store a := by
      intro a h1 h2
      rw [hw2]
      simp [World.record, World.write, World.alloc, Function.update_noteq h1,
        Function.update_noteq h2]
    have hnode2 : w2.store w.next = crawled := by
      rw [hw2]; simp [World.record, World.write, World.alloc]
    obtain ⟨hzs1, hnext1, hlog1, hrest1⟩ := ih w2 w1 zs hzs
    subst hnodes hyn
    refine ⟨?_, ?_, ?_, fun hnd hlt => ?_⟩
    · rw [hzs1, hnext2]
      simp [List.range'_succ]
    · rw [hnext1, hnext2]
      simp only [List.length_cons]
      omega
    · rw [hlog1, hlog2]
      simp [List.flatMap, List.append_assoc]
    · obtain ⟨hcont1, hframe1⟩ := hrest1 (List.nodup_cons.mp hnd).2
        (fun z hz => by have := hlt z (by simp [hz]); omega)
      have hnotin : w.next ∉ xs := fun hmem => by
        have := hlt w.next (by simp [hmem])
        omega
      refine ⟨?_, ?_⟩
      · simp only [List.map_cons, List.cons.injEq]
        refine ⟨?_, ?_⟩
        · rw [hframe1 w.next (by omega) hnotin, hnode2]
          simp [transformOf, hp, hc]
        · rw [hcont1]
          apply List.map_congr_left
          intro z hz
          have hzx : z ≠ x := fun hzx => (List.nodup_cons.mp hnd).1 (hzx ▸ hz)
          have hzn : z ≠ w.next := by
            have := hlt z (by simp [hz]); omega
          rw [hstore2 z hzx hzn]
      · intro a ha hax
        have h1 : a ≠ x := fun h => hax (by simp [h])
        have h2 : a ∉ xs := fun h => hax (by simp [h])
        rw [hframe1 a (by omega) h2, hstore2 a h1 (by omega)]

theorem cloned_next (xs : List Nat) (w : World) : (cloned xs w).next = w.next + xs.length := by
  induction xs generalizing w with
  | nil => rfl
  | cons x xs ih =>
    simp only [cloned, ih, List.length_cons, World.alloc]
    omega

theorem cloned_log (xs : List Nat) (w : World) : (cloned xs w).log = w.log := by
  induction xs generalizing w with
  | nil => rfl
  | cons x xs ih => simp only [cloned, ih, World.alloc]

theorem cloned_frame (xs : List Nat) (w : World) (a : Nat) (ha : a < w.next) :
    (cloned xs w).store a = w.store a := by
  induction xs generalizing w with
  | nil => rfl
  | cons x xs ih =>
    have hne : a ≠ w.next := by omega
    simp only [cloned]
    rw [ih (w.alloc (w.store x)) (by simp only [World.alloc]; omega)]
    simp [World.alloc, Function.update_noteq hne]

theorem cloned_append (xs ys : List Nat) (w : World) :
    cloned (xs ++ ys) w = cloned ys (cloned xs w) := by
  induction xs generalizing w with
  | nil => rfl
  | cons x xs ih => exact ih (w.alloc (w.store x))

/-- Cloning existing objects one by one leaves, in the fresh objects, the
contents of the originals in order. -/
theorem cloned_content (xs : List Nat) (w : World) (hxs : ∀ x ∈ xs, x < w.next) :
    (List.range' w.next xs.length).map (cloned xs w).store = xs.map w.store := by
  induction xs generalizing w with
  | nil => rfl
  | cons x xs ih =>
    have hx : x < w.next := hxs x (by simp)
    have hnext : (w.alloc (w.store x)).next = w.next + 1 := rfl
    have hih := ih (w.alloc (w.store x)) (fun z hz => by
      have := hxs z (by simp [hz])
      simp only [World.alloc]
      omega)
    simp only [List.length_cons, List.range'_succ, List.map_cons, cloned, List.cons.injEq]
    refine ⟨?_, ?_⟩
    · rw [cloned_frame xs _ w.next (by simp only [World.alloc]; omega)]
      simp [World.alloc]
    · rw [hnext] at hih
      rw [hih]
      apply List.map_congr_left
      intro z hz
      have hzn : z ≠ w.next := by
        have := hxs z (by simp [hz]); omega
      simp [World.alloc, Function.update_noteq hzn]

theorem cloneDeepAll_run (xs : List Nat) (w : World) :
    cloneDeepAll xs w = (.ok (List.range' w.next xs.length), cloned xs w) := by
  induction xs generalizing w with
  | nil => rfl
  | cons x xs ih =>
    show (cloneDeep x >>= fun y => cloneDeepAll xs >>= fun ys => pure (y :: ys)) w = _
    have h1 : cloneDeep x w = (.ok w.next, w.alloc (w.store x)) := rfl
    rw [run_bind_ok h1, run_bind_ok (ih _)]
    simp [List.range'_succ, cloned, World.alloc]

theorem cloneDeepOpt_run (xs : Option (List Nat)) (w : World) :
    cloneDeepOpt xs w =
      (.ok (xs.map fun l => List.range' w.next l.length), cloned (xs.getD []) w) := by
  cases xs with
  | none => rfl
  | some l =>
    show (cloneDeepAll l >>= fun ys => pure (some ys)) w = _
    rw [run_bind_ok (cloneDeepAll_run l w)]
    rfl

theorem cloneDeepRoot_run (s : LayoutRoot) (w : World) :
    cloneDeepRoot s w =
      (.ok { root := w.next,
             modals := s.modals.map fun l => List.range' (w.next + 1) l.length,
             overlays := s.overlays.map fun l =>
               List.range' (w.next + 1 + (s.modals.getD []).length) l.length },
       cloned (s.root :: (s.modals.getD [] ++ s.overlays.getD [])) w) := by
  have h1 : cloneDeep s.root w = (.ok w.next, w.alloc (w.store s.root)) := rfl
  show (cloneDeep s.root >>= fun root => cloneDeepOpt s.modals >>= fun modals =>
    cloneDeepOpt s.overlays >>= fun overlays =>
      (pure (LayoutRoot.mk root modals overlays) : M LayoutRoot)) w = _
  rw [run_bind_ok h1, run_bind_ok (cloneDeepOpt_run _ _), run_bind_ok (cloneDeepOpt_run _ _)]
  simp [cloned, cloned_append, cloned_next, World.alloc]

theorem getD_map_range' (xs : Option (List Nat)) (n : Nat) :
    (xs.map fun l => List.range' n l.length).getD [] = List.range' n (xs.getD []).length := by
  cases xs <;> rfl

theorem lodashMap_eq (xs : Option (List Nat)) (f : Nat → M Nat) :
    lodashMap xs f = mapArray f (xs.getD []) := by
  cases xs <;> rfl

/-- A successful transform phase of `setRoot`, in detail: the value it yields
is `{ root, modals, overlays }`, the calls made are the parse and the crawl of
the root, then of each modal in order, then of each overlay in order, and, the
input layouts being existing objects, every node holds at the end what the
corresponding input layout is transformed into. -/
theorem transformPhase_setRoot_ok (c : Collaborators) (s : LayoutRoot) (w w1 : World) (t : Arg)
    (h : transformPhase c (.setRoot s) w = (.ok t, w1)) :
    ∃ (root : Nat) (modals overlays : List Nat) (rootIn : Nat) (modalsIn overlaysIn : List Nat),
      t = .layoutRoot root modals overlays ∧
      modalsIn.length = modals.length ∧ overlaysIn.length = overlays.length ∧
      w1.log = w.log ++ (steps (rootIn, root) ++ (modalsIn.zip modals).flatMap steps ++
        (overlaysIn.zip overlays).flatMap steps) ∧
      ((∀ r ∈ (Invocation.setRoot s).supplied, r < w.next) →
        some (w1.store root) = transformOf c (w.store s.root) ∧
        modals.map (fun n => some (w1.store n)) =
          (s.modals.getD []).map (fun x => transformOf c (w.store x)) ∧
        overlays.map (fun n => some (w1.store n)) =
          (s.overlays.getD []).map (fun x => transformOf c (w.store x))) := by
  simp only [transformPhase] at h
  obtain ⟨input, wc, hclone, h1⟩ := bind_ok_inv h
  rw [cloneDeepRoot_run] at hclone
  simp only [Prod.mk.injEq, Except.ok.injEq] at hclone
  obtain ⟨hin, hwc⟩ := hclone
  obtain ⟨root, w2, hroot, h2⟩ := bind_ok_inv h1
  obtain ⟨modals, w3, hmod, h3⟩ := bind_ok_inv h2
  obtain ⟨overlays, w4, hov, h4⟩ := bind_ok_inv h3
  obtain ⟨ht, hw4⟩ := pure_ok_inv h4
  subst hw4 hin
  rw [lodashMap_eq, getD_map_range'] at hmod hov
  simp only at hroot
  have hsupplied : (Invocation.setRoot s).supplied =
      s.root :: (s.modals.getD [] ++ s.overlays.getD []) := rfl
  rw [hsupplied]
  generalize hms : s.modals.getD [] = ms at *
  generalize hos : s.overlays.getD [] = os at *
  have hall := mapArray_append_ok (mapArray_singleton hroot) (mapArray_append_ok hmod hov)
  have hcs : [w.next] ++ (List.range' (w.next + 1) ms.length ++
      List.range' (w.next + 1 + ms.length) os.length) =
      List.range' w.next (s.root :: (ms ++ os)).length := by
    rw [List.range'_append_1]
    simp only [List.length_cons, List.length_append, List.singleton_append]
    rw [show os.length + ms.length = ms.length + os.length by omega, List.range'_succ]
  have hnd : ([w.next] ++ (List.range' (w.next + 1) ms.length ++
      List.range' (w.next + 1 + ms.length) os.length)).Nodup := by
    rw [hcs]
    exact List.nodup_range' _ _
  have hlt : ∀ x ∈ [w.next] ++ (List.range' (w.next + 1) ms.length ++
      List.range' (w.next + 1 + ms.length) os.length), x < wc.next := by
    rw [hcs, ← hwc, cloned_next]
    intro x hx
    obtain ⟨i, hi, hxi⟩ := List.mem_range'.mp hx
    omega
  obtain ⟨_, _, hlog, hrest⟩ := mapArray_ok c _ wc w4 _ hall
  have hlm : modals.length = ms.length := by
    rw [mapArray_length hmod, List.length_range']
  have hlo : overlays.length = os.length := by
    rw [mapArray_length hov, List.length_range']
  refine ⟨root, modals, overlays, w.next, List.range' (w.next + 1) ms.length,
    List.range' (w.next + 1 + ms.length) os.length, ht.symm, by simp [hlm], by simp [hlo],
    ?_, fun hsup => ?_⟩
  · rw [hlog, ← hwc, cloned_log]
    congr 1
    rw [List.zip_append (by simp), List.zip_append (by simp [hlm]), List.flatMap_append,
      List.flatMap_append]
    simp [List.flatMap, List.append_assoc]
  · obtain ⟨hcont, _⟩ := hrest hnd hlt
    have hcontent : ([w.next] ++ (List.range' (w.next + 1) ms.length ++
        List.range' (w.next + 1 + ms.length) os.length)).map
          (fun x => transformOf c (wc.store x)) =
        (s.root :: (ms ++ os)).map (fun x => transformOf c (w.store x)) := by
      have := cloned_content (s.root :: (ms ++ os)) w hsup
      rw [hwc, ← hcs] at this
      have h2 := congrArg (List.map (transformOf c)) this
      simpa [List.map_map, Function.comp_def] using h2
    rw [hcontent] at hcont
    simp only [List.singleton_append, List.map_cons, List.map_append, List.cons.injEq] at hcont
    obtain ⟨hr, hrest2⟩ := hcont
    obtain ⟨hm1, ho1⟩ := List.append_inj hrest2 (by simp [hlm])
    exact ⟨hr, hm1, ho1⟩

theorem steps_isLayoutTransform (l : List (Nat × Nat)) :
    (l.flatMap steps).filter Event.isLayoutTransform = l.flatMap steps := by
  rw [List.filter_eq_self]
  intro ev hev
  obtain ⟨p, _, hp⟩ := List.mem_flatMap.mp hev
  simp only [steps, List.mem_cons, List.mem_singleton, List.not_mem_nil, or_false] at hp
  rcases hp with h | h <;> subst h <;> rfl

theorem exists_mem_zip_of_mem_right {l1 l2 : List Nat} (hlen : l1.length = l2.length) {r : Nat}
    (hr : r ∈ l2) : ∃ a, (a, r) ∈ l1.zip l2 := by
  induction l2 generalizing l1 with
  | nil => simp at hr
  | cons y ys ih =>
    cases l1 with
    | nil => simp at hlen
    | cons x xs =>
      rcases List.mem_cons.mp hr with h | h
      · exact ⟨x, by simp [h]⟩
      · obtain ⟨a, ha⟩ := ih (by simpa using hlen) h
        exact ⟨a, by simp [ha]⟩

theorem mem_steps_of_mem {l : List (Nat × Nat)} {a r : Nat} (h : (a, r) ∈ l) :
    Event.parse a (.ok r) ∈ l.flatMap steps ∧ Event.crawl r (.ok ()) ∈ l.flatMap steps := by
  constructor <;> exact List.mem_flatMap.mpr ⟨(a, r), h, by simp [steps]⟩

/-- After a successful transform phase of a layout-bearing method, every
object in the value it yields was returned by a `parse` call of the phase and
then crawled by a `crawl` call of the phase, and the phase made no other call. -/
theorem transformPhase_layout_ok (c : Collaborators) (call : Invocation) (w w1 : World) (t : Arg)
    (hl : call.bearsLayout = true) (h : transformPhase c call w = (.ok t, w1)) :
    ∃ new, w1.log = w.log ++ new ∧ new.filter Event.isLayoutTransform = new ∧
      ∀ r ∈ t.refs, (∃ a, Event.parse a (.ok r) ∈ new) ∧ Event.crawl r (.ok ()) ∈ new := by
  have simple : ∀ x : Nat,
      (cloneDeep x >>= fun input => parseThenCrawl c input >>= fun layout =>
        (pure (Arg.ref layout) : M Arg)) w = (.ok t, w1) →
      ∃ new, w1.log = w.log ++ new ∧ new.filter Event.isLayoutTransform = new ∧
        ∀ r ∈ t.refs, (∃ a, Event.parse a (.ok r) ∈ new) ∧ Event.crawl r (.ok ()) ∈ new := by
    intro x hx
    obtain ⟨input, wc, hclone, h1⟩ := bind_ok_inv hx
    obtain ⟨layout, w2, hptc, h2⟩ := bind_ok_inv h1
    obtain ⟨ht, hw2⟩ := pure_ok_inv h2
    obtain ⟨left, node, crawled, _, _, hlay, hw2'⟩ := parseThenCrawl_ok_inv hptc
    simp only [cloneDeep, Prod.mk.injEq, Except.ok.injEq] at hclone
    obtain ⟨hin, hwc⟩ := hclone
    subst ht hw2 hin hwc hlay
    refine ⟨steps (w.next, (w.alloc (w.store x)).next), ?_, ?_, ?_⟩
    · rw [hw2']
      simp [World.record, World.write, World.alloc, steps]
    · simpa [List.flatMap] using steps_isLayoutTransform [(w.next, (w.alloc (w.store x)).next)]
    · intro r hr
      simp only [Arg.refs, List.mem_singleton] at hr
      subst hr
      exact ⟨⟨w.next, by simp [steps]⟩, by simp [steps]⟩
  cases call with
  | setRoot s =>
    obtain ⟨root, modals, overlays, rootIn, modalsIn, overlaysIn, ht, hlm, hlo, hlog, _⟩ :=
      transformPhase_setRoot_ok c s w w1 t h
    refine ⟨_, hlog, ?_, ?_⟩
    · have := steps_isLayoutTransform
        ((rootIn, root) :: (modalsIn.zip modals ++ overlaysIn.zip overlays))
      simpa [List.flatMap_append, List.flatMap_cons, List.append_assoc] using this
    · intro r hr
      subst ht
      simp only [Arg.refs, List.mem_cons, List.mem_append] at hr
      have key : ∃ a,
          (a, r) ∈ (rootIn, root) :: (modalsIn.zip modals ++ overlaysIn.zip overlays) := by
        rcases hr with h1 | h1 | h1
        · exact ⟨rootIn, by simp [h1]⟩
        · obtain ⟨a, ha⟩ := exists_mem_zip_of_mem_right hlm h1
          exact ⟨a, by simp [ha]⟩
        · obtain ⟨a, ha⟩ := exists_mem_zip_of_mem_right hlo h1
          exact ⟨a, by simp [ha]⟩
      obtain ⟨a, ha⟩ := key
      have := mem_steps_of_mem ha
      simp only [List.flatMap_cons, List.flatMap_append, ← List.append_assoc] at this
      exact ⟨⟨a, this.1⟩, this.2⟩
  | showModal x => exact simple x h
  | push _ x => exact simple x h
  | setStackRoot _ x => exact simple x h
  | showOverlay x => exact simple x h
  | setDefaultOptions _ => simp [Invocation.bearsLayout] at hl
  | mergeOptions _ _ => simp [Invocation.bearsLayout] at hl
  | dismissModal _ => simp [Invocation.bearsLayout] at hl
  | dismissAllModals => simp [Invocation.bearsLayout] at hl
  | pop _ _ => simp [Invocation.bearsLayout] at hl
  | popTo _ => simp [Invocation.bearsLayout] at hl
  | popToRoot _ => simp [Invocation.bearsLayout] at hl
  | dismissOverlay _ => simp [Invocation.bearsLayout] at hl
  | getLaunchArgs => simp [Invocation.bearsLayout] at hl

theorem mintsId_of_bearsLayout {call : Invocation} (hl : call.bearsLayout = true) :
    call.mintsId = true := by
  cases call <;> simp_all [Invocation.bearsLayout, Invocation.mintsId]

theorem sendArgs_payloadOf_layout {call : Invocation} (hl : call.bearsLayout = true)
    (commandId : String) (t : Arg) :
    (sendArgs call commandId t).head? = some (.str commandId) ∧
    (sendArgs call commandId t).getLast? = some t ∧
    List.lookup "commandId" (payloadOf call commandId t) = some (.str commandId) ∧
    List.lookup call.field (payloadOf call commandId t) = some t := by
  cases call <;>
    simp_all [Invocation.bearsLayout, sendArgs, payloadOf, Invocation.field, List.lookup]

theorem payloadOf_plain {call : Invocation} (hm : call.mintsId = false) (commandId : String)
    (t : Arg) : List.lookup "commandId" (payloadOf call commandId t) = none := by
  cases call <;> simp_all [Invocation.mintsId, payloadOf, List.lookup]

/-- What a layout-bearing method notifies: under its own name, the payload
built from the command id and the transformed value that just went to the
native sender, every object of that value parsed and crawled. -/
theorem notify_of_layout_call (c : Collaborators) (call : Invocation) (w : World)
    (hl : call.bearsLayout = true) (n : String) (payload : Payload)
    (out : Except JSError Unit) (hmem : Event.notify n payload out ∈ trace c call w) :
    n = call.name ∧ ∃ commandId t sent,
      payload = payloadOf call commandId t ∧
      (trace c call w).filter Event.isSend =
        [.send call.name (sendArgs call commandId t) sent] ∧
      ∀ r ∈ t.refs, wasTransformed (trace c call w) r := by
  obtain ⟨r1, w1, new1, htp, h1, hcase⟩ := invoke_cases c call w
  have hnot : Event.notify n payload out ∉ new1 := by
    intro hmem
    have := (h1.events _ hmem).1
    simp [Event.isTransform] at this
  have hsend : new1.filter Event.isSend = [] :=
    h1.filter_eq_nil _ (fun ev hev => (Event.not_dispatch_of_isTransform hev).1)
  have hm := mintsId_of_bearsLayout hl
  rcases hcase with ⟨e1, _, _, _, htr⟩ | ⟨t, new2, r, hr, _, hd, _, htr⟩
  · rw [htr] at hmem
    exact absurd hmem hnot
  · subst hr
    obtain ⟨new, hnew, _, hrefs⟩ := transformPhase_layout_ok c call w w1 t hl htp
    have hnn : new = new1 := List.append_cancel_left (hnew.symm.trans h1.log_eq)
    subst hnn
    have hrefs2 : ∀ r ∈ t.refs, wasTransformed (trace c call w) r := by
      intro r hr
      obtain ⟨⟨a, ha⟩, hc⟩ := hrefs r hr
      rw [htr]
      exact Or.inl ⟨⟨a, List.mem_append_left _ ha⟩, List.mem_append_left _ hc⟩
    rw [htr] at hmem
    rcases List.mem_append.mp hmem with hmem | hmem
    · exact absurd hmem hnot
    · rw [htr, List.filter_append, hsend, List.nil_append]
      cases hd with
      | generateThrew e _ => simp at hmem
      | sendThrew commandId e _ => simp at hmem
      | notifyThrew commandId result e _ =>
        simp only [List.mem_cons, List.mem_singleton, Event.notify.injEq, List.not_mem_nil,
          or_false, false_or, reduceCtorEq] at hmem
        exact ⟨hmem.1, commandId, t, .ok result, hmem.2.1, by simp [Event.isSend],
          by rw [← htr]; exact hrefs2⟩
      | done commandId result _ =>
        simp only [List.mem_cons, List.mem_singleton, Event.notify.injEq, List.not_mem_nil,
          or_false, false_or, reduceCtorEq] at hmem
        exact ⟨hmem.1, commandId, t, .ok result, hmem.2.1, by simp [Event.isSend],
          by rw [← htr]; exact hrefs2⟩
      | plainSendThrew e hm1 => rw [hm] at hm1; cases hm1
      | plainNotifyThrew result e hm1 => rw [hm] at hm1; cases hm1
      | plainDone result hm1 => rw [hm] at hm1; cases hm1

/-- C4, refuted as stated: `mergeOptions` sends the processed copy (object 10)
to the native sender and notifies the observer with a payload that has no
command id and whose `options` is the caller's own object (object 3), so both
halves of the claim fail. -/
theorem mergeOptions_notifies_unprocessed_options :
    ¬ NotifiesCommandId Example.collab (.mergeOptions "compA" 3) Example.world ∧
    ¬ NotifiesTransformedValue Example.collab (.mergeOptions "compA" 3) Example.world ∧
    ¬ NotifiesWhatWasSent Example.collab (.mergeOptions "compA" 3) Example.world := by
  have hnotify : Event.notify "mergeOptions"
      [("componentId", .str "compA"), ("options", .ref 3)] (.ok ()) ∈
      trace Example.collab (.mergeOptions "compA" 3) Example.world :=
    List.getElem?_mem (n := 2) rfl
  have hsent : (trace Example.collab (.mergeOptions "compA" 3) Example.world).filter
      Event.isSend =
      [.send "mergeOptions" [.str "compA", .ref 10] (.ok (.str "mergeOptions"))] := rfl
  have hid : ¬ NotifiesCommandId Example.collab (.mergeOptions "compA" 3) Example.world := by
    intro h
    obtain ⟨_, commandId, args, sent, _, _, hlookup⟩ := h _ _ _ hnotify
    simp [List.lookup] at hlookup
  have hvalue :
      ¬ NotifiesTransformedValue Example.collab (.mergeOptions "compA" 3) Example.world := by
    intro h
    obtain ⟨t, args, sent, hargs, hlast, hlookup, _⟩ := h _ _ _ hnotify
    rw [hsent] at hargs
    simp only [List.cons.injEq, Event.send.injEq, and_true] at hargs
    rw [← hargs.2.1] at hlast
    simp only [Invocation.field, List.lookup] at hlookup
    have h3 : t = .ref 3 := by simpa using hlookup.symm
    have h10 : t = .ref 10 := by simpa using hlast.symm
    rw [h3] at h10
    cases h10
  exact ⟨hid, hvalue, fun h => hid h.1⟩

/-- C4, amended. For each layout-bearing method (`setRoot`, `showModal`, `push`,
`setStackRoot`, `showOverlay`) the observer is notified under the method's name
with a payload whose `commandId` is the id sent to the native sender and whose
`layout` is the very value passed to the native sender, every object of which
was parsed and crawled; `setDefaultOptions` and `mergeOptions` notify under the
method's name with a payload that carries no `commandId`. -/
theorem observer_notified_of_what_was_sent (c : Collaborators) (call : Invocation) (w : World) :
    (call.bearsLayout = true → NotifiesWhatWasSent c call w) ∧
    (call.mintsId = false → ∀ n payload out, Event.notify n payload out ∈ trace c call w →
      n = call.name ∧ List.lookup "commandId" payload = none) := by
  refine ⟨fun hl => ⟨fun n payload out hmem => ?_, fun n payload out hmem => ?_⟩,
    fun hm n payload out hmem => ?_⟩
  · obtain ⟨hn, commandId, t, sent, hp, hsent, _⟩ :=
      notify_of_layout_call c call w hl n payload out hmem
    have hargs := sendArgs_payloadOf_layout hl commandId t
    exact ⟨hn, commandId, _, sent, hsent, hargs.1, by rw [hp]; exact hargs.2.2.1⟩
  · obtain ⟨_, commandId, t, sent, hp, hsent, hrefs⟩ :=
      notify_of_layout_call c call w hl n payload out hmem
    have hargs := sendArgs_payloadOf_layout hl commandId t
    exact ⟨t, _, sent, hsent, hargs.2.1, by rw [hp]; exact hargs.2.2.2, hrefs⟩
  · obtain ⟨r1, w1, new1, htp, h1, hcase⟩ := invoke_cases c call w
    have hnot : Event.notify n payload out ∉ new1 := by
      intro hmem
      have := (h1.events _ hmem).1
      simp [Event.isTransform] at this
    rcases hcase with ⟨e1, _, _, _, htr⟩ | ⟨t, new2, r, _, _, hd, _, htr⟩
    · rw [htr] at hmem
      exact absurd hmem hnot
    · rw [htr] at hmem
      rcases List.mem_append.mp hmem with hmem | hmem
      · exact absurd hmem hnot
      · cases hd with
        | plainSendThrew e _ => simp at hmem
        | plainNotifyThrew result e _ =>
          simp only [List.mem_cons, List.mem_singleton, Event.notify.injEq, List.not_mem_nil,
            or_false, false_or, reduceCtorEq] at hmem
          obtain ⟨hn, hp, _⟩ := hmem
          subst hn hp
          exact ⟨rfl, payloadOf_plain hm _ _⟩
        | plainDone result _ =>
          simp only [List.mem_cons, List.mem_singleton, Event.notify.injEq, List.not_mem_nil,
            or_false, false_or, reduceCtorEq] at hmem
          obtain ⟨hn, hp, _⟩ := hmem
          subst hn hp
          exact ⟨rfl, payloadOf_plain hm _ _⟩
        | generateThrew e hm1 => rw [hm] at hm1; cases hm1
        | sendThrew commandId e hm1 => rw [hm] at hm1; cases hm1
        | notifyThrew commandId result e hm1 => rw [hm] at hm1; cases hm1
        | done commandId result hm1 => rw [hm] at hm1; cases hm1

theorem observer_notified_of_what_was_sent_witness :
    NotifiesWhatWasSent Example.collab (.push "compA" 3) Example.world ∧
    ("setDefaultOptions" = "setDefaultOptions" ∧
      List.lookup "commandId" [("options", Arg.ref 3)] = none) :=
  ⟨(observer_notified_of_what_was_sent Example.collab (.push "compA" 3) Example.world).1 rfl,
   (observer_notified_of_what_was_sent Example.collab (.setDefaultOptions 3)
      Example.world).2 rfl "setDefaultOptions" [("options", .ref 3)] (.ok ())
      (List.getElem?_mem (n := 2) rfl)⟩

end Commands

namespace ComponentEventsObserver

/-! ## Properties of the component event registry -/

theorem Registry.wellFormed_empty : Registry.empty.WellFormed := by
  intro rec hrec
  simp [Registry.empty] at hrec

theorem Registry.WellFormed.bindComponent {r r1 : Registry} (h : r.WellFormed)
    {component : Listener} {sub : Subscription}
    (hb : ComponentEventsObserver.bindComponent r component = .ok (sub, r1)) :
    r1.WellFormed := by
  unfold ComponentEventsObserver.bindComponent at hb
  split at hb
  · simp only [Except.ok.injEq, Prod.mk.injEq] at hb
    obtain ⟨_, hr1⟩ := hb
    subst hr1
    intro rec hrec
    simp only [List.mem_append, List.mem_singleton] at hrec
    rcases hrec with hrec | hrec
    · have := h rec hrec
      show rec.token < r.nextToken + 1
      omega
    · subst hrec
      show r.nextToken < r.nextToken + 1
      omega
  · simp at hb

theorem Registry.WellFormed.remove {r : Registry} (h : r.WellFormed) (sub : Subscription) :
    (sub.remove r).WellFormed := by
  intro rec hrec
  exact h rec (List.mem_filter.mp hrec).1

theorem Registry.WellFormed.unmounted {r : Registry} (h : r.WellFormed) (componentId : String) :
    (ComponentEventsObserver.unmounted componentId r).WellFormed := by
  intro rec hrec
  exact h rec (List.mem_filter.mp hrec).1

theorem notify_append (kind : EventKind) (event : ComponentEvent)
    (recs1 recs2 : List ComponentRecord) (n1 n2 : Nat) :
    notify kind event { records := recs1 ++ recs2, nextToken := n1 } =
      notify kind event { records := recs1, nextToken := n2 } ++
        notify kind event { records := recs2, nextToken := n2 } := by
  simp [notify, List.filter_append]

/-- C8. Bind two listeners to the same component id, one after the other. A
notify for that id then calls the event's method, on those of the two that
implement it, first on the one bound first, after the calls to listeners bound
earlier; once the subscription of one of the two is removed, a notify calls
only the other; once both are removed, in either order, it calls neither. -/
theorem two_listeners_same_componentId (r : Registry) (hwf : r.WellFormed)
    (componentId : String) (l1 l2 : Listener)
    (h1 : l1.componentId = .str componentId) (h2 : l2.componentId = .str componentId)
    (kind : EventKind) (event : ComponentEvent) (he : event.componentId = componentId) :
    ∃ s1 r1 s2 r2, bindComponent r l1 = .ok (s1, r1) ∧ bindComponent r1 l2 = .ok (s2, r2) ∧
      notify kind event r2 = notify kind event r ++ deliveries kind event [l1, l2] ∧
      notify kind event (s2.remove r2) = notify kind event r ++ deliveries kind event [l1] ∧
      notify kind event (s1.remove r2) = notify kind event r ++ deliveries kind event [l2] ∧
      notify kind event (s1.remove (s2.remove r2)) = notify kind event r ∧
      notify kind event (s2.remove (s1.remove r2)) = notify kind event r := by
  subst he
  have hne1 : ∀ a ∈ r.records, ¬a.componentId = event.componentId ∨ ¬a.token = r.nextToken :=
    fun a ha => Or.inr (by have := hwf a ha; omega)
  have hne2 : ∀ a ∈ r.records,
      ¬a.componentId = event.componentId ∨ ¬a.token = r.nextToken + 1 :=
    fun a ha => Or.inr (by have := hwf a ha; omega)
  have hboth : deliveries kind event [l1, l2] =
      deliveries kind event [l1] ++ deliveries kind event [l2] := by
    simp only [deliveries, ← List.map_append, ← List.filter_append, List.singleton_append]
  have hone : ∀ (l : Listener) (t n : Nat),
      notify kind event
        { records := [{ componentId := event.componentId, token := t, listener := l }],
          nextToken := n } = deliveries kind event [l] := by
    intro l t n
    by_cases hk : kind ∈ l.implements <;> simp [notify, deliveries, List.filter_cons, hk]
  have hsame : ∀ n : Nat, notify kind event { records := r.records, nextToken := n } =
      notify kind event r := by
    intro n
    rfl
  refine ⟨{ componentId := event.componentId, token := r.nextToken },
    { records := r.records ++
        [{ componentId := event.componentId, token := r.nextToken, listener := l1 }],
      nextToken := r.nextToken + 1 },
    { componentId := event.componentId, token := r.nextToken + 1 },
    { records := r.records ++
        [{ componentId := event.componentId, token := r.nextToken, listener := l1 }] ++
        [{ componentId := event.componentId, token := r.nextToken + 1, listener := l2 }],
      nextToken := r.nextToken + 1 + 1 },
    by simp only [bindComponent, h1], by simp only [bindComponent, h2],
    ?_, ?_, ?_, ?_, ?_⟩
  · rw [notify_append kind event _ _ _ 0, notify_append kind event _ _ _ 0, hsame, hone, hone,
      hboth, List.append_assoc]
  · have hrec : (Subscription.remove { componentId := event.componentId, token := r.nextToken + 1 }
        { records := r.records ++
            [{ componentId := event.componentId, token := r.nextToken, listener := l1 }] ++
            [{ componentId := event.componentId, token := r.nextToken + 1, listener := l2 }],
          nextToken := r.nextToken + 1 + 1 }) =
        { records := r.records ++
            [{ componentId := event.componentId, token := r.nextToken, listener := l1 }],
          nextToken := r.nextToken + 1 + 1 } := by
      simp [Subscription.remove, List.filter_append]
      exact hne2
    rw [hrec, notify_append kind event _ _ _ 0, hsame, hone]
  · have hrec : (Subscription.remove { componentId := event.componentId, token := r.nextToken }
        { records := r.records ++
            [{ componentId := event.componentId, token := r.nextToken, listener := l1 }] ++
            [{ componentId := event.componentId, token := r.nextToken + 1, listener := l2 }],
          nextToken := r.nextToken + 1 + 1 }) =
        { records := r.records ++
            [{ componentId := event.componentId, token := r.nextToken + 1, listener := l2 }],
          nextToken := r.nextToken + 1 + 1 } := by
      simp [Subscription.remove, List.filter_append]
      exact hne1
    rw [hrec, notify_append kind event _ _ _ 0, hsame, hone]
  · have hrec : (Subscription.remove { componentId := event.componentId, token := r.nextToken }
        (Subscription.remove { componentId := event.componentId, token := r.nextToken + 1 }
          { records := r.records ++
              [{ componentId := event.componentId, token := r.nextToken, listener := l1 }] ++
              [{ componentId := event.componentId, token := r.nextToken + 1, listener := l2 }],
            nextToken := r.nextToken + 1 + 1 })) =
        { records := r.records, nextToken := r.nextToken + 1 + 1 } := by
      simp [Subscription.remove, List.filter_append, List.filter_filter]
      intro a ha
      constructor <;> first | exact hne1 a ha | exact hne2 a ha
    rw [hrec, hsame]
  · have hrec : (Subscription.remove { componentId := event.componentId, token := r.nextToken + 1 }
        (Subscription.remove { componentId := event.componentId, token := r.nextToken }
          { records := r.records ++
              [{ componentId := event.componentId, token := r.nextToken, listener := l1 }] ++
              [{ componentId := event.componentId, token := r.nextToken + 1, listener := l2 }],
            nextToken := r.nextToken + 1 + 1 })) =
        { records := r.records, nextToken := r.nextToken + 1 + 1 } := by
      simp [Subscription.remove, List.filter_append, List.filter_filter]
      intro a ha
      constructor <;> first | exact hne1 a ha | exact hne2 a ha
    rw [hrec, hsame]

theorem two_listeners_same_componentId_witness :
    ∃ s1 r1 s2 r2,
      bindComponent Registry.empty Example.instance1 = .ok (s1, r1) ∧
      bindComponent r1 Example.instance2 = .ok (s2, r2) ∧
      notify .componentDidAppear Example.didAppear r2 =
        notify .componentDidAppear Example.didAppear Registry.empty ++
          deliveries .componentDidAppear Example.didAppear
            [Example.instance1, Example.instance2] ∧
      notify .componentDidAppear Example.didAppear (s2.remove r2) =
        notify .componentDidAppear Example.didAppear Registry.empty ++
          deliveries .componentDidAppear Example.didAppear [Example.instance1] ∧
      notify .componentDidAppear Example.didAppear (s1.remove r2) =
        notify .componentDidAppear Example.didAppear Registry.empty ++
          deliveries .componentDidAppear Example.didAppear [Example.instance2] ∧
      notify .componentDidAppear Example.didAppear (s1.remove (s2.remove r2)) =
        notify .componentDidAppear Example.didAppear Registry.empty ∧
      notify .componentDidAppear Example.didAppear (s2.remove (s1.remove r2)) =
        notify .componentDidAppear Example.didAppear Registry.empty :=
  two_listeners_same_componentId Registry.empty Registry.wellFormed_empty "myCompId"
    Example.instance1 Example.instance2 rfl rfl .componentDidAppear Example.didAppear rfl

/-- C9. `bindComponent` fails with InvalidComponent on a component whose
ComponentId is `undefined` and on one whose ComponentId is anything but a
string (the number 123, say), and succeeds with a subscription on every
component whose ComponentId is a string. -/
theorem bindComponent_requires_string_componentId (r : Registry) (component : Listener) :
    (component.componentId = .undefined →
      bindComponent r component = .error .invalidComponent) ∧
    ((∀ s, component.componentId ≠ .str s) →
      bindComponent r component = .error .invalidComponent) ∧
    (∀ s, component.componentId = .str s →
      ∃ sub r1, bindComponent r component = .ok (sub, r1)) := by
  refine ⟨fun h => ?_, fun h => ?_, fun s h => ?_⟩
  · simp only [bindComponent, h]
  · unfold bindComponent
    split
    · next s hs => exact absurd hs (h s)
    · rfl
  · simp only [bindComponent, h]
    exact ⟨_, _, rfl⟩

theorem bindComponent_requires_string_componentId_witness :
    bindComponent Registry.empty { ident := 0, componentId := .undefined, implements := [] } =
      .error .invalidComponent ∧
    bindComponent Registry.empty { ident := 0, componentId := .num 123, implements := [] } =
      .error .invalidComponent ∧
    ∃ sub r1,
      bindComponent Registry.empty { ident := 0, componentId := .str "abc", implements := [] } =
        .ok (sub, r1) :=
  ⟨(bindComponent_requires_string_componentId Registry.empty
      { ident := 0, componentId := .undefined, implements := [] }).1 rfl,
   (bindComponent_requires_string_componentId Registry.empty
      { ident := 0, componentId := .num 123, implements := [] }).2.1 (fun s h => by cases h),
   (bindComponent_requires_string_componentId Registry.empty
      { ident := 0, componentId := .str "abc", implements := [] }).2.2 "abc" rfl⟩

end ComponentEventsObserver
